import Mathlib

/-!
Verification of the report-aggregation logic of the Internly internship tracker
(`src/pages/Reports.tsx`, `fetchReportStats`).

Modelling conventions:

* A calendar date is its day number (`ℤ`): days since 1970-01-01.  JS `Date`
  comparison (`<`, `>`, `isAfter`, `isBefore`, `isWithinInterval`, `min`) is
  timestamp order, which on the pure dates handled here (date-string parses and
  calendar boundaries) is exactly day-number order.  Time-of-day and timezone
  offsets carried by JS `Date` values do not affect date-level bucket
  membership and are abstracted away.
* `new Date(report.date)` either parses to a date or yields `Invalid Date`
  (internal time `NaN`); we model the result as `Option ℤ` (`none` = invalid).
  Every comparison against `NaN` is false in JS, so an invalid date fails
  every `isWithinInterval` test; the embedding bakes this into the record
  matching.
* `report.time_spent` is a nullable numeric column, modelled as `Option ℤ`
  (`none` = SQL `NULL`, delivered as JS `null`).
* The code accumulates hours as `(time_spent || 0) / 60` and keeps bucket
  totals in hours; we carry the exact minute totals (60 times the exact hour
  sum) and treat the division by 60 and the final `toFixed(1)` as display
  formatting.  `toFixed(0)` on the completion percentage (a value in
  `[0, 100]`) rounds to the nearest integer, ties up; `completionRateOf`
  implements that rounding exactly on the rational `completed / total * 100`.
* The calendar functions of `date-fns` (`startOfWeek`, `endOfWeek`,
  `addWeeks`, `differenceInWeeks`, `eachDayOfInterval`, `startOfMonth`,
  `endOfMonth`, `addMonths`, `differenceInMonths`, `min`) are external library
  code; they are reimplemented here on day numbers over the proleptic
  Gregorian calendar (civil-from-days / days-from-civil conversions).
-/

namespace Internly

/-! ## Gregorian calendar on day numbers -/

/-- Convert a day number (days since 1970-01-01) to `(year, month, day)` in
the proleptic Gregorian calendar, months `1..12`. -/
def civilFromDays (z : ℤ) : ℤ × ℤ × ℤ :=
  let z' := z + 719468
  let era := z' / 146097
  let doe := z' % 146097
  let cen := (4 * doe + 3) / 146097
  let dcen := ((4 * doe + 3) % 146097) / 4
  let yoc := (4 * dcen + 3) / 1461
  let doy := ((4 * dcen + 3) % 1461) / 4
  let yoe := 100 * cen + yoc
  let y := yoe + era * 400
  let mp := (5 * doy + 2) / 153
  let d := doy - (153 * mp + 2) / 5 + 1
  let m := mp + (if mp < 10 then 3 else -9)
  (y + (if m ≤ 2 then 1 else 0), m, d)

/-- Convert a Gregorian `(year, month, day)` to its day number
(days since 1970-01-01). -/
def daysFromCivil (y m d : ℤ) : ℤ :=
  let y' := y - (if m ≤ 2 then 1 else 0)
  let era := y' / 400
  let yoe := y' - era * 400
  let doy := (153 * (m + (if 2 < m then -3 else 9)) + 2) / 5 + d - 1
  let doe := yoe * 365 + yoe / 4 - yoe / 100 + doy
  era * 146097 + doe - 719468

/-- Gregorian leap-year rule (as used by JS `Date` month arithmetic). -/
def isLeapYear (y : ℤ) : Prop := (y % 4 = 0 ∧ y % 100 ≠ 0) ∨ y % 400 = 0

instance (y : ℤ) : Decidable (isLeapYear y) := by
  unfold isLeapYear
  infer_instance

/-- Number of days in month `m` of year `y` (date-fns `getDaysInMonth`). -/
def daysInMonth (y m : ℤ) : ℤ :=
  if m = 2 then (if isLeapYear y then 29 else 28)
  else if m = 4 ∨ m = 6 ∨ m = 9 ∨ m = 11 then 30
  else 31

/-! ## date-fns operations on day numbers

Day 0 (1970-01-01) is a Thursday; Mondays are the days `d` with
`d % 7 = 4`. -/

/-- date-fns `startOfWeek(d, \x7b weekStartsOn: 1 \x7d)`: the Monday of the week
containing `d` (the greatest Monday `≤ d`). -/
def startOfWeekMon (d : ℤ) : ℤ := d - (d - 4) % 7

/-- date-fns `endOfWeek(d, \x7b weekStartsOn: 1 \x7d)`: the Sunday ending the week
of `d` (time-of-day `23:59:59.999` is display-level and dropped). -/
def endOfWeekMon (d : ℤ) : ℤ := startOfWeekMon d + 6

/-- date-fns `addWeeks`. -/
def addWeeks (d n : ℤ) : ℤ := d + 7 * n

/-- date-fns `differenceInWeeks`: full weeks between the dates, truncated
toward zero (`differenceInDays(a, b) / 7`, `Math.floor` for positive and
`Math.ceil` for negative quotients). -/
def differenceInWeeks (a b : ℤ) : ℤ := Int.tdiv (a - b) 7

/-- date-fns `eachDayOfInterval`: the days of `[lo, hi]` in ascending order.
The code only calls it with `lo ≤ hi` (proved below); for `hi < lo` this
model returns `[]`. -/
def eachDayOfInterval (lo hi : ℤ) : List ℤ :=
  (List.range (hi + 1 - lo).toNat).map (fun (k : ℕ) => lo + (k : ℤ))

/-- date-fns `startOfMonth`. -/
def startOfMonth (z : ℤ) : ℤ :=
  daysFromCivil (civilFromDays z).1 (civilFromDays z).2.1 1

/-- date-fns `endOfMonth` (time-of-day dropped). -/
def endOfMonth (z : ℤ) : ℤ :=
  daysFromCivil (civilFromDays z).1 (civilFromDays z).2.1
    (daysInMonth (civilFromDays z).1 (civilFromDays z).2.1)

/-- date-fns `addMonths`: shift by `n` months, clamping the day-of-month to
the length of the target month. -/
def addMonths (z n : ℤ) : ℤ :=
  daysFromCivil ((12 * (civilFromDays z).1 + ((civilFromDays z).2.1 - 1) + n) / 12)
    ((12 * (civilFromDays z).1 + ((civilFromDays z).2.1 - 1) + n) % 12 + 1)
    (min (civilFromDays z).2.2
      (daysInMonth ((12 * (civilFromDays z).1 + ((civilFromDays z).2.1 - 1) + n) / 12)
        ((12 * (civilFromDays z).1 + ((civilFromDays z).2.1 - 1) + n) % 12 + 1)))

/-- date-fns `differenceInCalendarMonths`. -/
def differenceInCalendarMonths (a b : ℤ) : ℤ :=
  (12 * (civilFromDays a).1 + (civilFromDays a).2.1) -
    (12 * (civilFromDays b).1 + (civilFromDays b).2.1)

/-- date-fns `differenceInMonths`: number of full months between the dates
(sign of `compareAsc`, last partial month not counted).  None of the verified
claims depends on its exact value: it only feeds the loop bound
`numMonths = max(1, · + 1)`, and the month loop is additionally cut off by its
`break` condition. -/
def differenceInMonths (a b : ℤ) : ℤ :=
  let sign : ℤ := if b < a then 1 else if a < b then -1 else 0
  let difference := |differenceInCalendarMonths a b|
  if difference < 1 then 0
  else
    let moved := addMonths a (-(sign * difference))
    let cmp : ℤ := if moved < b then -1 else if b < moved then 1 else 0
    let isLastMonthNotFull : ℤ := if cmp = -sign then 1 else 0
    sign * (difference - isLastMonthNotFull)

/-! ## Data model (`reports` table rows as fetched) -/

/-- One row of the `reports` table, restricted to the fields the aggregation
reads.  `date` is the result of `new Date(report.date)` (`none` = the string
did not parse to a valid date); `time_spent` is the nullable minutes column
(`none` = `NULL`). -/
structure Report where
  date : Option ℤ
  time_spent : Option ℤ
  status : String
  tags : Option String
  skills_tools : Option String
deriving DecidableEq

/-- JS `(report.time_spent || 0)`: `null` (and `0` itself) coerces to `0`;
every other number — including negative values — passes through. -/
def orZero (v : Option ℤ) : ℤ := v.getD 0

/-- JS `isWithinInterval(new Date(r.date), \x7b start, end \x7d)` for `lo ≤ hi`:
an invalid date (`NaN` time) fails both comparisons. -/
def inWindow (r : Report) (lo hi : ℤ) : Bool :=
  match r.date with
  | none => false
  | some d => decide (lo ≤ d) && decide (d ≤ hi)

/-! ## Weekly bucketing (Reports.tsx lines 152–215) -/

/-- One entry of the per-week `daysData` array: the cell's calendar date and
the minutes accumulated on it (the code stores `hours = minutes / 60` plus a
display label `format(date, 'EEE')`). -/
structure DayCell where
  date : ℤ
  minutes : ℤ
deriving DecidableEq

/-- `daysData[dayIndex].hours += (report.time_spent || 0) / 60` after
`dayIndex = findIndex(same calendar date)`: add `m` minutes to the first cell
with date `d`. -/
def addToDay (d m : ℤ) : List DayCell → List DayCell
  | [] => []
  | c :: cs =>
    if c.date = d then { c with minutes := c.minutes + m } :: cs
    else c :: addToDay d m cs

/-- Loop state of the per-week `reports.forEach` pass: the mutable `daysData`
array and the accumulators `weekTotalHours` (held in minutes), `weekCompleted`
and `weekTotal`. -/
structure WeekAcc where
  days : List DayCell
  totalMin : ℤ
  completed : ℕ
  total : ℕ
deriving DecidableEq

/-- Body of the per-week `reports.forEach` (lines 186–202): a record inside
`[weekStart, adjustedWeekEnd]` adds its minutes to the matching day cell and
to the running total (`dayIndex !== -1` guard), and always bumps the
completed/total counters; a record with an invalid date matches nothing. -/
def weekStep (weekStart adjEnd : ℤ) (acc : WeekAcc) (r : Report) : WeekAcc :=
  match r.date with
  | none => acc
  | some d =>
    if weekStart ≤ d ∧ d ≤ adjEnd then
      let acc1 :=
        if acc.days.any (fun c => c.date == d) then
          { acc with
            days := addToDay d (orZero r.time_spent) acc.days
            totalMin := acc.totalMin + orZero r.time_spent }
        else acc
      { acc1 with
        completed := acc1.completed + (if r.status = "completed" then 1 else 0)
        total := acc1.total + 1 }
    else acc

/-- `completionRate = total > 0 ? (completed / total) * 100 : 0`, then
`parseFloat(·.toFixed(0))`: the percentage rounded to the nearest integer,
ties up — computed exactly as `⌊(100 c / t) + 1/2⌋ = (200 c + t) / (2 t)` in
integer arithmetic. -/
def completionRateOf (completed total : ℕ) : ℕ :=
  if 0 < total then (200 * completed + total) / (2 * total) else 0

/-- One weekly bucket.  `weekStart`/`weekEnd` are the loop's `weekStart` and
`adjustedWeekEnd` dates (the code stores them `format`ted, plus
`totalHours = totalMinutes / 60` rounded for display); `completedCount` and
`totalCount` are the loop-local counters `weekCompleted` / `weekTotal` that
feed `completionRate`. -/
structure WeekBucket where
  weekStart : ℤ
  weekEnd : ℤ
  totalMinutes : ℤ
  completedCount : ℕ
  totalCount : ℕ
  completionRate : ℕ
  days : List DayCell
deriving DecidableEq

/-- Loop body for week index `i` (lines 160–213). -/
def mkWeekBucket (reports : List Report) (startDate endDateToUse : ℤ) (i : ℕ) : WeekBucket :=
  let weekStartDate := addWeeks startDate i
  let ws := startOfWeekMon weekStartDate
  let we := endOfWeekMon weekStartDate
  let adjustedWeekEnd := if we < endDateToUse then we else endDateToUse
  let days0 := (eachDayOfInterval ws adjustedWeekEnd).map (fun x => ⟨x, 0⟩)
  let acc := reports.foldl (weekStep ws adjustedWeekEnd)
    { days := days0, totalMin := 0, completed := 0, total := 0 }
  { weekStart := ws
    weekEnd := adjustedWeekEnd
    totalMinutes := acc.totalMin
    completedCount := acc.completed
    totalCount := acc.total
    completionRate := completionRateOf acc.completed acc.total
    days := acc.days }

/-- `numWeeks = Math.max(1, differenceInWeeks(endDateToUse, startDate) + 1)`. -/
def numWeeks (startDate endDateToUse : ℤ) : ℤ :=
  max 1 (differenceInWeeks endDateToUse startDate + 1)

/-- The weekly pass (lines 152–215): `endDateToUse = min([today, endDate])`;
`for (i = 0; i < numWeeks; i++)` with
`if (weekStartDate > endDateToUse) break` — a `takeWhile` over the index
range — each surviving index producing one bucket. -/
def bucketByWeek (reports : List Report) (startDate endDate today : ℤ) : List WeekBucket :=
  let endDateToUse := min today endDate
  ((List.range (numWeeks startDate endDateToUse).toNat).takeWhile
      (fun (i : ℕ) => decide (addWeeks startDate (i : ℤ) ≤ endDateToUse))).map
    (mkWeekBucket reports startDate endDateToUse)

/-! ## Monthly bucketing (Reports.tsx lines 217–260) -/

/-- One monthly bucket.  `monthStart`/`monthEnd` are the loop's `monthStart`
and `actualMonthEnd`; the code stores `format(monthStart, 'MMM yyyy')` and
`totalHours` for display, with `completedCount`/`totalCount` the loop locals
feeding `completionRate`. -/
structure MonthBucket where
  monthStart : ℤ
  monthEnd : ℤ
  totalMinutes : ℤ
  completedCount : ℕ
  totalCount : ℕ
  completionRate : ℕ
deriving DecidableEq

/-- Body of the per-month `reports.forEach` (lines 239–249), on the state
`(monthlyHours in minutes, monthCompleted, monthTotal)`. -/
def monthStep (lo hi : ℤ) (acc : ℤ × ℕ × ℕ) (r : Report) : ℤ × ℕ × ℕ :=
  match r.date with
  | none => acc
  | some d =>
    if lo ≤ d ∧ d ≤ hi then
      (acc.1 + orZero r.time_spent,
        acc.2.1 + (if r.status = "completed" then 1 else 0),
        acc.2.2 + 1)
    else acc

/-- Loop body for month index `i` (lines 222–258). -/
def mkMonthBucket (reports : List Report) (startDate analysisEnd : ℤ) (i : ℕ) : MonthBucket :=
  let monthDate := addMonths startDate i
  let lo := startOfMonth monthDate
  let me := endOfMonth monthDate
  let actualMonthEnd := if me < analysisEnd then me else analysisEnd
  let acc := reports.foldl (monthStep lo actualMonthEnd) (0, 0, 0)
  { monthStart := lo
    monthEnd := actualMonthEnd
    totalMinutes := acc.1
    completedCount := acc.2.1
    totalCount := acc.2.2
    completionRate := completionRateOf acc.2.1 acc.2.2 }

/-- `numMonths = Math.max(1, differenceInMonths(analysisEndDate, startDate) + 1)`. -/
def numMonths (startDate analysisEnd : ℤ) : ℤ :=
  max 1 (differenceInMonths analysisEnd startDate + 1)

/-- The monthly pass (lines 217–260):
`analysisEndDate = isAfter(endDate, currentDate) ? currentDate : endDate`;
`for (i = 0; i < numMonths; i++)` with
`if (isAfter(monthDate, analysisEndDate)) break`. -/
def bucketByMonth (reports : List Report) (startDate endDate today : ℤ) : List MonthBucket :=
  let analysisEnd := if today < endDate then today else endDate
  ((List.range (numMonths startDate analysisEnd).toNat).takeWhile
      (fun (i : ℕ) => decide (addMonths startDate (i : ℤ) ≤ analysisEnd))).map
    (mkMonthBucket reports startDate analysisEnd)

/-! ## Tag / tool tallies (Reports.tsx lines 136–150) -/

/-- Whitespace as trimmed by JS `String.prototype.trim` (restricted to the
ASCII whitespace occurring in this data). -/
def isWsp (c : Char) : Bool := c = ' ' ∨ c = '\t' ∨ c = '\n' ∨ c = '\r'

/-- JS `s.trim()` on the character list. -/
def trimChars (l : List Char) : List Char :=
  ((l.dropWhile isWsp).reverse.dropWhile isWsp).reverse

/-- JS `s.split(',')` on the character list: the comma-separated pieces
(an empty string yields one empty piece, like JS). -/
def splitCommaChars : List Char → List (List Char)
  | [] => [[]]
  | c :: cs =>
    if c = ',' then [] :: splitCommaChars cs
    else
      match splitCommaChars cs with
      | [] => [[c]]
      | p :: ps => (c :: p) :: ps

/-- `report.tags.split(',').map(t => t.trim())`. -/
def splitTrim (s : String) : List String :=
  (splitCommaChars s.data).map (fun l => String.mk (trimChars l))

/-- `m[tag] = (m[tag] || 0) + 1` on a JS object modelled as an
insertion-ordered association list: bump an existing key in place, append a
new key at the end. -/
def bump (m : List (String × ℕ)) (k : String) : List (String × ℕ) :=
  if m.any (fun p => p.1 == k) then
    m.map (fun p => if p.1 = k then (p.1, p.2 + 1) else p)
  else m ++ [(k, 1)]

/-- The labels a record contributes: guarded by JS truthiness of the field
(`null` and `""` contribute nothing), then split on commas and trimmed —
with no filtering of empty pieces. -/
def fieldLabels (f : Option String) : List String :=
  match f with
  | none => []
  | some s => if s.isEmpty then [] else splitTrim s

/-- The tally loop over one comma-delimited field. -/
def tallyField (get : Report → Option String) (reports : List Report) :
    List (String × ℕ) :=
  reports.foldl (fun m r => (fieldLabels (get r)).foldl bump m) []

/-- `newStats.tags` (lines 137–143). -/
def tallyTags (reports : List Report) : List (String × ℕ) :=
  tallyField (fun r => r.tags) reports

/-- `newStats.tools` (lines 144–149). -/
def tallyTools (reports : List Report) : List (String × ℕ) :=
  tallyField (fun r => r.skills_tools) reports

/-- Spec-side count: how often `label` occurs among the (split, trimmed)
pieces of the field across all records. -/
def labelOccurrences (get : Report → Option String) (reports : List Report)
    (label : String) : ℕ :=
  (reports.map (fun r => (fieldLabels (get r)).count label)).sum

/-- The count recorded for `label` in a tally (0 if absent). -/
def tallyCount (m : List (String × ℕ)) (label : String) : ℕ :=
  ((m.filter (fun p => p.1 = label)).map (fun p => p.2)).sum

/-! ## Overview statistics (Reports.tsx lines 112–134) -/

/-- `reports.length`. -/
def totalEntries (reports : List Report) : ℕ := reports.length

/-- `reports.filter(r => r.status === 'completed').length`. -/
def countCompleted (reports : List Report) : ℕ :=
  (reports.filter (fun r => r.status == "completed")).length

/-- `reports.filter(r => r.status === 'pending').length`. -/
def countPending (reports : List Report) : ℕ :=
  (reports.filter (fun r => r.status == "pending")).length

/-- The three spellings accepted as in-progress (line 116). -/
def isInProgressStatus (s : String) : Bool :=
  s == "in progress" || s == "in_progress" || s == "inprogress"

/-- `reports.filter(r => r.status === 'in progress' || r.status === 'in_progress' || r.status === 'inprogress').length`. -/
def countInProgress (reports : List Report) : ℕ :=
  (reports.filter (fun r => isInProgressStatus r.status)).length

/-- A JS number: either `NaN` or an (exact) numeric value. -/
inductive JSNum where
  | nan : JSNum
  | num : ℚ → JSNum
deriving DecidableEq

/-- JS `+` on numbers: `NaN` is absorbing. -/
def jsAdd : JSNum → JSNum → JSNum
  | JSNum.num a, JSNum.num b => JSNum.num (a + b)
  | _, _ => JSNum.nan

/-- JS `report.time_spent / 60` on a number-or-null column value: `null`
coerces to `0` (`Number(null) = 0`), so the quotient is `0`, not `NaN`. -/
def jsDiv60 : Option ℤ → JSNum
  | none => JSNum.num 0
  | some v => JSNum.num ((v : ℚ) / 60)

/-- Whether a JS number is `NaN`. -/
def JSNum.isNaN : JSNum → Bool
  | JSNum.nan => true
  | JSNum.num _ => false

/-- Line 112: `reports.reduce((sum, r) => sum + (r.time_spent / 60), 0)` —
the overall hour total before the `toFixed(1)` display rounding, with the
raw (unguarded) division. -/
def totalHoursRaw (reports : List Report) : JSNum :=
  reports.foldl (fun s r => jsAdd s (jsDiv60 r.time_spent)) (JSNum.num 0)

/-! ## Spec-side window sum -/

/-- Sum of the effective durations of the records whose date falls in
`[lo, hi]` — the right-hand side of the spec's conservation property. -/
def windowMinutes (reports : List Report) (lo hi : ℤ) : ℤ :=
  ((reports.filter (fun r => inWindow r lo hi)).map (fun r => orZero r.time_spent)).sum

/-- Replace a missing (`null`) `time_spent` by an explicit `0`, leaving
present values (including negative ones) unchanged. -/
def fillMissing (r : Report) : Report :=
  { r with time_spent := some (orZero r.time_spent) }

/-- The minutes a record adds to a week's running total, given the dates `D`
present in the `daysData` array: its duration if its date is inside the week
window and has a day cell, `0` otherwise. -/
def dayContrib (ws ae : ℤ) (D : List ℤ) (r : Report) : ℤ :=
  match r.date with
  | none => 0
  | some d => if (ws ≤ d ∧ d ≤ ae) ∧ d ∈ D then orZero r.time_spent else 0

/-! ## Concrete inputs used by the example claims and counterexamples.

Day numbers: 2024-01-01 (a Monday) is day 19723, so 2024-01-03 is 19725,
2024-01-15 is 19737 and 2024-01-20 is 19742. -/

/-- One completed 60-minute record per day of 2024-01-01 … 2024-01-20. -/
def c7reports : List Report :=
  (List.range 20).map (fun i => ⟨some (19723 + (i : ℤ)), some 60, "completed", none, none⟩)

/-- A single record dated 2024-01-01 (Monday), 60 minutes, completed. -/
def c1reports : List Report := [⟨some 19723, some 60, "completed", none, none⟩]

/-- A single record with a negative duration of −60 minutes. -/
def c4reports : List Report := [⟨some 19723, some (-60), "pending", none, none⟩]

/-- Two records tagged `"api, testing"` and `"api, design"` (the spec's
tally example). -/
def c6reports : List Report :=
  [⟨some 19723, some 0, "completed", some "api, testing", none⟩,
    ⟨some 19723, some 0, "completed", some "api, design", none⟩]

/-- A record whose `tags` string ends in a comma, producing an empty piece
after the split. -/
def c6trailing : List Report := [⟨some 19723, some 0, "completed", some "api,", none⟩]

/-- A single record whose status is none of the recognised spellings. -/
def c9reports : List Report := [⟨some 19723, some 60, "cancelled", none, none⟩]

/-- A single record with a `NULL` `time_spent`. -/
def c10reports : List Report := [⟨some 19723, none, "pending", none, none⟩]

/-! # Theorems

## Calendar correctness -/

theorem cenSplit (n C r R s : ℤ) (hn : 0 ≤ n) (hn2 : n ≤ 146096)
    (h1 : 4 * n + 3 = 146097 * C + r) (hr1 : 0 ≤ r) (hr2 : r < 146097)
    (h2 : r = 4 * R + s) (hs1 : 0 ≤ s) (hs2 : s < 4) :
    n = 36524 * C + R ∧ 0 ≤ C ∧ C ≤ 3 ∧ 0 ≤ R ∧ R ≤ 36524 ∧ (R = 36524 → C = 3) := by
  have hd : (4:ℤ) ∣ C + s - 3 := ⟨n - R - 36524 * C, by omega⟩
  omega

theorem yearSplit (R C Y r D s : ℤ) (hR1 : 0 ≤ R) (hR2 : R ≤ 36524)
    (h1 : 4 * R + 3 = 1461 * Y + r) (hr1 : 0 ≤ r) (hr2 : r < 1461)
    (h2 : r = 4 * D + s) (hs1 : 0 ≤ s) (hs2 : s < 4)
    (hRC : R = 36524 → C = 3) :
    R = 365 * Y + Y / 4 + D ∧ 0 ≤ Y ∧ Y ≤ 99 ∧ 0 ≤ D ∧ D ≤ 365 ∧
      (D = 365 → Y % 4 = 3) ∧ (D = 365 → Y = 99 → C = 3) := by
  have hd : (4:ℤ) ∣ Y + s - 3 := ⟨R - D - 365 * Y, by omega⟩
  omega

theorem monthSplit (doy mp d : ℤ) (h1 : 0 ≤ doy) (h2 : doy ≤ 365)
    (hmp : mp = (5 * doy + 2) / 153) (hd : d = doy - (153 * mp + 2) / 5 + 1) :
    0 ≤ mp ∧ mp ≤ 11 ∧ (153 * mp + 2) / 5 + d - 1 = doy ∧ 1 ≤ d ∧
      (mp = 11 → d ≤ 29) ∧ (mp = 11 → d = 29 → doy = 365) ∧
      ((mp = 1 ∨ mp = 3 ∨ mp = 6 ∨ mp = 8) → d ≤ 30) ∧ d ≤ 31 := by
  omega

theorem yoeDivFacts (C Y : ℤ) (hY1 : 0 ≤ Y) (hY2 : Y ≤ 99) :
    (100 * C + Y) / 4 = 25 * C + Y / 4 ∧ (100 * C + Y) / 100 = C := by
  omega

theorem daysFromCivil_eq (y m d era yoe : ℤ)
    (h : y - (if m ≤ 2 then 1 else 0) = 400 * era + yoe)
    (hy1 : 0 ≤ yoe) (hy2 : yoe ≤ 399) :
    daysFromCivil y m d =
      146097 * era + (365 * yoe + yoe / 4 - yoe / 100 +
        ((153 * (m + (if 2 < m then -3 else 9)) + 2) / 5 + d - 1)) - 719468 := by
  unfold daysFromCivil
  have h400 : (400 * era + yoe) / 400 = era := by omega
  simp only [h, h400]
  ring_nf

set_option maxHeartbeats 1000000 in
theorem civil_roundtrip (z : ℤ) :
    daysFromCivil (civilFromDays z).1 (civilFromDays z).2.1 (civilFromDays z).2.2 = z := by
  have hz : z + 719468 = 146097 * ((z + 719468) / 146097) + (z + 719468) % 146097 := by omega
  set era := (z + 719468) / 146097 with hera
  set doe := (z + 719468) % 146097 with hdoe
  have hdoe1 : 0 ≤ doe := Int.emod_nonneg _ (by norm_num)
  have hdoe2 : doe ≤ 146096 := by
    have := Int.emod_lt_of_pos (z + 719468) (show (0:ℤ) < 146097 by norm_num)
    omega
  obtain ⟨hA1, hC1, hC2, hR1, hR2, hA6⟩ :=
    cenSplit doe ((4 * doe + 3) / 146097) ((4 * doe + 3) % 146097)
      (((4 * doe + 3) % 146097) / 4) (((4 * doe + 3) % 146097) % 4)
      hdoe1 hdoe2 (by omega) (by omega) (by omega) (by omega) (by omega) (by omega)
  set cen := (4 * doe + 3) / 146097 with hcen
  set dcen := ((4 * doe + 3) % 146097) / 4 with hdcen
  obtain ⟨hB1, hY1, hY2, hD1, hD2, hB6, hB7⟩ :=
    yearSplit dcen cen ((4 * dcen + 3) / 1461) ((4 * dcen + 3) % 1461)
      (((4 * dcen + 3) % 1461) / 4) (((4 * dcen + 3) % 1461) % 4)
      hR1 hR2 (by omega) (by omega) (by omega) (by omega) (by omega) (by omega) hA6
  set yoc := (4 * dcen + 3) / 1461 with hyoc
  set doy := ((4 * dcen + 3) % 1461) / 4 with hdoy
  obtain ⟨hM1, hM2, hM3, hM4, hM5, hM6, hM7, hM8⟩ :=
    monthSplit doy ((5 * doy + 2) / 153)
      (doy - (153 * ((5 * doy + 2) / 153) + 2) / 5 + 1) hD1 hD2 rfl rfl
  set mp := (5 * doy + 2) / 153 with hmp
  set dd := doy - (153 * mp + 2) / 5 + 1 with hdd
  obtain ⟨hE1, hE2⟩ := yoeDivFacts cen yoc hY1 hY2
  have hciv : civilFromDays z =
      (100 * cen + yoc + era * 400 + (if mp + (if mp < 10 then 3 else -9) ≤ 2 then 1 else 0),
        mp + (if mp < 10 then 3 else -9), dd) := by
    unfold civilFromDays
    simp only [← hera, ← hdoe, ← hcen, ← hdcen, ← hyoc, ← hdoy, ← hmp, ← hdd]
  have hc1 : (civilFromDays z).1 =
      100 * cen + yoc + era * 400 + (if mp + (if mp < 10 then 3 else -9) ≤ 2 then 1 else 0) := by
    rw [hciv]
  have hc2 : (civilFromDays z).2.1 = mp + (if mp < 10 then 3 else -9) := by rw [hciv]
  have hc3 : (civilFromDays z).2.2 = dd := by rw [hciv]
  rw [hc1, hc2, hc3]
  rw [daysFromCivil_eq
      (100 * cen + yoc + era * 400 + (if mp + (if mp < 10 then 3 else -9) ≤ 2 then 1 else 0))
      (mp + (if mp < 10 then 3 else -9)) dd era (100 * cen + yoc)
      (by split_ifs <;> omega) (by omega) (by omega)]
  have hshift : (mp + (if mp < 10 then 3 else -9)) +
      (if 2 < mp + (if mp < 10 then 3 else -9) then -3 else 9) = mp := by
    split_ifs <;> omega
  rw [hshift]
  omega

set_option maxHeartbeats 1000000 in
theorem civil_valid (z : ℤ) :
    1 ≤ (civilFromDays z).2.1 ∧ (civilFromDays z).2.1 ≤ 12 ∧
      1 ≤ (civilFromDays z).2.2 ∧
      (civilFromDays z).2.2 ≤ daysInMonth (civilFromDays z).1 (civilFromDays z).2.1 := by
  have hz : z + 719468 = 146097 * ((z + 719468) / 146097) + (z + 719468) % 146097 := by omega
  set era := (z + 719468) / 146097 with hera
  set doe := (z + 719468) % 146097 with hdoe
  have hdoe1 : 0 ≤ doe := Int.emod_nonneg _ (by norm_num)
  have hdoe2 : doe ≤ 146096 := by
    have := Int.emod_lt_of_pos (z + 719468) (show (0:ℤ) < 146097 by norm_num)
    omega
  obtain ⟨hA1, hC1, hC2, hR1, hR2, hA6⟩ :=
    cenSplit doe ((4 * doe + 3) / 146097) ((4 * doe + 3) % 146097)
      (((4 * doe + 3) % 146097) / 4) (((4 * doe + 3) % 146097) % 4)
      hdoe1 hdoe2 (by omega) (by omega) (by omega) (by omega) (by omega) (by omega)
  set cen := (4 * doe + 3) / 146097 with hcen
  set dcen := ((4 * doe + 3) % 146097) / 4 with hdcen
  obtain ⟨hB1, hY1, hY2, hD1, hD2, hB6, hB7⟩ :=
    yearSplit dcen cen ((4 * dcen + 3) / 1461) ((4 * dcen + 3) % 1461)
      (((4 * dcen + 3) % 1461) / 4) (((4 * dcen + 3) % 1461) % 4)
      hR1 hR2 (by omega) (by omega) (by omega) (by omega) (by omega) (by omega) hA6
  set yoc := (4 * dcen + 3) / 1461 with hyoc
  set doy := ((4 * dcen + 3) % 1461) / 4 with hdoy
  obtain ⟨hM1, hM2, hM3, hM4, hM5, hM6, hM7, hM8⟩ :=
    monthSplit doy ((5 * doy + 2) / 153)
      (doy - (153 * ((5 * doy + 2) / 153) + 2) / 5 + 1) hD1 hD2 rfl rfl
  set mp := (5 * doy + 2) / 153 with hmp
  set dd := doy - (153 * mp + 2) / 5 + 1 with hdd
  have hciv : civilFromDays z =
      (100 * cen + yoc + era * 400 + (if mp + (if mp < 10 then 3 else -9) ≤ 2 then 1 else 0),
        mp + (if mp < 10 then 3 else -9), dd) := by
    unfold civilFromDays
    simp only [← hera, ← hdoe, ← hcen, ← hdcen, ← hyoc, ← hdoy, ← hmp, ← hdd]
  have hc1 : (civilFromDays z).1 =
      100 * cen + yoc + era * 400 + (if mp + (if mp < 10 then 3 else -9) ≤ 2 then 1 else 0) := by
    rw [hciv]
  have hc2 : (civilFromDays z).2.1 = mp + (if mp < 10 then 3 else -9) := by rw [hciv]
  have hc3 : (civilFromDays z).2.2 = dd := by rw [hciv]
  rw [hc1, hc2, hc3]
  rcases lt_or_le mp 10 with hlt | hge
  · rw [if_pos hlt]
    refine ⟨by omega, by omega, by omega, ?_⟩
    rw [if_neg (show ¬(mp + 3 ≤ 2) by omega)]
    unfold daysInMonth
    split_ifs with hm2 hleap hm30
    · omega
    · omega
    · have h30 := hM7 (by omega)
      omega
    · omega
  · rw [if_neg (not_lt.2 hge)]
    refine ⟨by omega, by omega, by omega, ?_⟩
    rcases (show mp = 10 ∨ mp = 11 by omega) with h10 | h11
    · rw [h10]
      rw [show (10:ℤ) + -9 = 1 by norm_num]
      rw [if_pos (show (1:ℤ) ≤ 2 by norm_num)]
      unfold daysInMonth
      rw [if_neg (show (1:ℤ) ≠ 2 by norm_num), if_neg (by norm_num)]
      omega
    · rw [h11]
      rw [show (11:ℤ) + -9 = 2 by norm_num]
      rw [if_pos (show (2:ℤ) ≤ 2 by norm_num)]
      unfold daysInMonth
      rw [if_pos rfl]
      have hdd29 : dd ≤ 29 := hM5 h11
      by_cases hleap : isLeapYear (100 * cen + yoc + era * 400 + 1)
      · rw [if_pos hleap]
        omega
      · rw [if_neg hleap]
        by_contra hcon
        have h29 : dd = 29 := by omega
        have h365 : doy = 365 := hM6 h11 h29
        have h4 : yoc % 4 = 3 := hB6 h365
        apply hleap
        unfold isLeapYear
        rcases eq_or_ne yoc 99 with h99 | h99
        · have hcen3 : cen = 3 := hB7 h365 h99
          right
          omega
        · left
          exact ⟨by omega, by omega⟩

theorem addMonths_zero (z : ℤ) : addMonths z 0 = z := by
  obtain ⟨hm1, hm2, hd1, hd2⟩ := civil_valid z
  unfold addMonths
  have hdiv : (12 * (civilFromDays z).1 + ((civilFromDays z).2.1 - 1) + 0) / 12 =
      (civilFromDays z).1 := by omega
  have hmod : (12 * (civilFromDays z).1 + ((civilFromDays z).2.1 - 1) + 0) % 12 + 1 =
      (civilFromDays z).2.1 := by omega
  rw [hdiv, hmod, min_eq_left hd2]
  exact civil_roundtrip z

/-! ## List and loop helpers -/

theorem takeWhile_append_all {α : Type} (p : α → Bool) (l1 l2 : List α)
    (h : l1.takeWhile p = l1) :
    (l1 ++ l2).takeWhile p = l1 ++ l2.takeWhile p := by
  induction l1 with
  | nil => simp
  | cons a l ih =>
    cases hp : p a with
    | false => simp [List.takeWhile_cons, hp] at h
    | true =>
      simp only [List.takeWhile_cons, hp, if_true] at h
      have hl : l.takeWhile p = l := by
        injection h
      simp [List.takeWhile_cons, hp, ih hl]

theorem takeWhile_append_stop {α : Type} (p : α → Bool) (l1 l2 : List α)
    (h : l1.takeWhile p ≠ l1) :
    (l1 ++ l2).takeWhile p = l1.takeWhile p := by
  induction l1 with
  | nil => simp at h
  | cons a l ih =>
    cases hp : p a with
    | false => simp [List.takeWhile_cons, hp]
    | true =>
      have hl : l.takeWhile p ≠ l := by
        intro he
        exact h (by simp [List.takeWhile_cons, hp, he])
      simp [List.takeWhile_cons, hp, ih hl]

theorem takeWhile_range_spec (p : ℕ → Bool) (n : ℕ) :
    ∃ k, k ≤ n ∧ (List.range n).takeWhile p = List.range k ∧
      (∀ i, i < k → p i = true) ∧ (k < n → p k = false) := by
  induction n with
  | zero =>
    exact ⟨0, Nat.le_refl 0, rfl, fun i h => absurd h (Nat.not_lt_zero i),
      fun h => absurd h (lt_irrefl 0)⟩
  | succ n ih =>
    obtain ⟨k, hkn, heq, hall, hstop⟩ := ih
    by_cases hk : k = n
    · subst hk
      cases hp : p k with
      | false =>
        refine ⟨k, by omega, ?_, hall, fun _ => hp⟩
        rw [List.range_succ, takeWhile_append_all p _ _ heq]
        simp [List.takeWhile_cons, hp]
      | true =>
        refine ⟨k + 1, by omega, ?_, ?_, ?_⟩
        · rw [List.range_succ, takeWhile_append_all p _ _ heq]
          simp [List.takeWhile_cons, hp]
        · intro i hi
          rcases Nat.lt_succ_iff_lt_or_eq.1 hi with h | h
          · exact hall i h
          · subst h
            exact hp
        · intro h
          omega
    · have hkn2 : k < n := lt_of_le_of_ne hkn hk
      have hne : (List.range n).takeWhile p ≠ List.range n := by
        rw [heq]
        intro hc
        have hlen := congrArg List.length hc
        simp at hlen
        omega
      refine ⟨k, by omega, ?_, hall, fun _ => hstop hkn2⟩
      rw [List.range_succ, takeWhile_append_stop p _ _ hne, heq]

theorem mem_eachDayOfInterval {lo hi d : ℤ} :
    d ∈ eachDayOfInterval lo hi ↔ lo ≤ d ∧ d ≤ hi := by
  unfold eachDayOfInterval
  simp only [List.mem_map, List.mem_range]
  constructor
  · rintro ⟨k, hk, rfl⟩
    omega
  · rintro ⟨h1, h2⟩
    exact ⟨(d - lo).toNat, by omega, by omega⟩

theorem ite_min (a b : ℤ) : (if a < b then a else b) = min a b := by
  split_ifs <;> omega

/-! ## Week-loop characterization -/

theorem inWindow_none (r : Report) (lo hi : ℤ) (h : r.date = none) :
    inWindow r lo hi = false := by
  unfold inWindow
  rw [h]

theorem inWindow_some (r : Report) (lo hi d : ℤ) (h : r.date = some d) :
    inWindow r lo hi = (decide (lo ≤ d) && decide (d ≤ hi)) := by
  unfold inWindow
  rw [h]

theorem weekStep_none (ws ae : ℤ) (acc : WeekAcc) (r : Report) (h : r.date = none) :
    weekStep ws ae acc r = acc := by
  unfold weekStep
  rw [h]

theorem weekStep_some (ws ae : ℤ) (acc : WeekAcc) (r : Report) (d : ℤ) (h : r.date = some d) :
    weekStep ws ae acc r =
      (if ws ≤ d ∧ d ≤ ae then
        (fun acc1 => { acc1 with
            completed := acc1.completed + (if r.status = "completed" then 1 else 0)
            total := acc1.total + 1 })
          (if acc.days.any (fun c => c.date == d) then
            { acc with
              days := addToDay d (orZero r.time_spent) acc.days
              totalMin := acc.totalMin + orZero r.time_spent }
          else acc)
      else acc) := by
  unfold weekStep
  rw [h]

theorem addToDay_dates (d m : ℤ) (l : List DayCell) :
    (addToDay d m l).map (fun c => c.date) = l.map (fun c => c.date) := by
  induction l with
  | nil => rfl
  | cons c cs ih =>
    unfold addToDay
    split_ifs <;> simp [ih]

theorem any_date_eq (l : List DayCell) (d : ℤ) :
    (l.any (fun c => c.date == d)) = true ↔ d ∈ l.map (fun c => c.date) := by
  simp only [List.any_eq_true, List.mem_map, beq_iff_eq]

theorem weekStep_dates (ws ae : ℤ) (acc : WeekAcc) (r : Report) :
    ((weekStep ws ae acc r).days).map (fun c => c.date) = acc.days.map (fun c => c.date) := by
  cases hd : r.date with
  | none => rw [weekStep_none ws ae acc r hd]
  | some d =>
    rw [weekStep_some ws ae acc r d hd]
    split_ifs <;> simp [addToDay_dates]

theorem dayContrib_none (ws ae : ℤ) (D : List ℤ) (r : Report) (h : r.date = none) :
    dayContrib ws ae D r = 0 := by
  unfold dayContrib
  rw [h]

theorem dayContrib_some (ws ae : ℤ) (D : List ℤ) (r : Report) (d : ℤ) (h : r.date = some d) :
    dayContrib ws ae D r = if (ws ≤ d ∧ d ≤ ae) ∧ d ∈ D then orZero r.time_spent else 0 := by
  unfold dayContrib
  rw [h]

theorem weekStep_totalMin (ws ae : ℤ) (acc : WeekAcc) (r : Report) :
    (weekStep ws ae acc r).totalMin =
      acc.totalMin + dayContrib ws ae (acc.days.map (fun c => c.date)) r := by
  cases hd : r.date with
  | none =>
    rw [weekStep_none ws ae acc r hd, dayContrib_none ws ae _ r hd]
    ring
  | some d =>
    rw [weekStep_some ws ae acc r d hd, dayContrib_some ws ae _ r d hd]
    by_cases h1 : ws ≤ d ∧ d ≤ ae
    · rw [if_pos h1]
      by_cases h2 : acc.days.any (fun c => c.date == d) = true
      · rw [if_pos h2, if_pos (show (ws ≤ d ∧ d ≤ ae) ∧ d ∈ acc.days.map (fun c => c.date) from
          ⟨h1, (any_date_eq acc.days d).1 h2⟩)]
        try rfl
        try simp
      · rw [if_neg h2, if_neg (show ¬((ws ≤ d ∧ d ≤ ae) ∧ d ∈ acc.days.map (fun c => c.date)) from
          fun hc => h2 ((any_date_eq acc.days d).2 hc.2))]
        try rfl
        try simp
    · rw [if_neg h1, if_neg (show ¬((ws ≤ d ∧ d ≤ ae) ∧ d ∈ acc.days.map (fun c => c.date)) from
        fun hc => h1 hc.1)]
      try rfl
      try simp

theorem weekStep_total (ws ae : ℤ) (acc : WeekAcc) (r : Report) :
    (weekStep ws ae acc r).total = acc.total + (if inWindow r ws ae then 1 else 0) := by
  cases hd : r.date with
  | none =>
    rw [weekStep_none ws ae acc r hd, inWindow_none r ws ae hd]
    simp
  | some d =>
    rw [weekStep_some ws ae acc r d hd, inWindow_some r ws ae d hd]
    by_cases h1 : ws ≤ d ∧ d ≤ ae
    · rw [if_pos h1]
      have hb : (decide (ws ≤ d) && decide (d ≤ ae)) = true := by
        simp [h1.1, h1.2]
      rw [hb]
      by_cases h2 : acc.days.any (fun c => c.date == d) = true
      · rw [if_pos h2]
        simp
      · rw [if_neg h2]
        simp
    · rw [if_neg h1]
      have hb : (decide (ws ≤ d) && decide (d ≤ ae)) = false := by
        rcases not_and_or.1 h1 with h | h <;> simp [h]
      rw [hb]
      simp

theorem weekStep_completed (ws ae : ℤ) (acc : WeekAcc) (r : Report) :
    (weekStep ws ae acc r).completed =
      acc.completed + (if (inWindow r ws ae && (r.status == "completed")) then 1 else 0) := by
  cases hd : r.date with
  | none =>
    rw [weekStep_none ws ae acc r hd, inWindow_none r ws ae hd]
    simp
  | some d =>
    rw [weekStep_some ws ae acc r d hd, inWindow_some r ws ae d hd]
    by_cases h1 : ws ≤ d ∧ d ≤ ae
    · rw [if_pos h1]
      have hb : (decide (ws ≤ d) && decide (d ≤ ae)) = true := by
        simp [h1.1, h1.2]
      rw [hb]
      by_cases h2 : acc.days.any (fun c => c.date == d) = true
      · rw [if_pos h2]
        by_cases h3 : r.status = "completed" <;> simp [h3]
      · rw [if_neg h2]
        by_cases h3 : r.status = "completed" <;> simp [h3]
    · rw [if_neg h1]
      have hb : (decide (ws ≤ d) && decide (d ≤ ae)) = false := by
        rcases not_and_or.1 h1 with h | h <;> simp [h]
      rw [hb]
      simp

theorem foldl_weekStep_dates (ws ae : ℤ) (rs : List Report) (acc : WeekAcc) :
    ((rs.foldl (weekStep ws ae) acc).days).map (fun c => c.date) =
      acc.days.map (fun c => c.date) := by
  induction rs generalizing acc with
  | nil => rfl
  | cons r rs ih =>
    rw [List.foldl_cons, ih, weekStep_dates]

theorem foldl_weekStep_totalMin (ws ae : ℤ) (rs : List Report) (acc : WeekAcc) :
    (rs.foldl (weekStep ws ae) acc).totalMin =
      acc.totalMin + (rs.map (dayContrib ws ae (acc.days.map (fun c => c.date)))).sum := by
  induction rs generalizing acc with
  | nil => simp
  | cons r rs ih =>
    rw [List.foldl_cons, ih, weekStep_dates, weekStep_totalMin]
    simp only [List.map_cons, List.sum_cons]
    ring

theorem foldl_weekStep_total (ws ae : ℤ) (rs : List Report) (acc : WeekAcc) :
    (rs.foldl (weekStep ws ae) acc).total =
      acc.total + rs.countP (fun r => inWindow r ws ae) := by
  induction rs generalizing acc with
  | nil => simp
  | cons r rs ih =>
    rw [List.foldl_cons, ih, weekStep_total, List.countP_cons]
    by_cases h : inWindow r ws ae = true <;> simp [h] <;> omega

theorem foldl_weekStep_completed (ws ae : ℤ) (rs : List Report) (acc : WeekAcc) :
    (rs.foldl (weekStep ws ae) acc).completed =
      acc.completed + rs.countP (fun r => inWindow r ws ae && (r.status == "completed")) := by
  induction rs generalizing acc with
  | nil => simp
  | cons r rs ih =>
    rw [List.foldl_cons, ih, weekStep_completed, List.countP_cons]
    by_cases h : (inWindow r ws ae && (r.status == "completed")) = true <;> simp [h] <;> omega

/-! ## Per-bucket field characterizations -/

theorem dayContrib_each (ws ae : ℤ) (r : Report) :
    dayContrib ws ae (eachDayOfInterval ws ae) r =
      if inWindow r ws ae then orZero r.time_spent else 0 := by
  cases hd : r.date with
  | none => rw [dayContrib_none ws ae _ r hd, inWindow_none r ws ae hd, if_neg (by simp)]
  | some d =>
    rw [dayContrib_some ws ae _ r d hd, inWindow_some r ws ae d hd]
    by_cases h : ws ≤ d ∧ d ≤ ae
    · rw [if_pos ⟨h, mem_eachDayOfInterval.2 h⟩, if_pos (by simp [h.1, h.2])]
    · rw [if_neg (fun hc => h hc.1), if_neg (by simp; omega)]

theorem sum_ite_windowMinutes (rs : List Report) (ws ae : ℤ) :
    (rs.map (fun r => if inWindow r ws ae then orZero r.time_spent else 0)).sum =
      windowMinutes rs ws ae := by
  induction rs with
  | nil => rfl
  | cons r rs ih =>
    simp only [windowMinutes, List.filter_cons, List.map_cons, List.sum_cons] at ih ⊢
    by_cases h : inWindow r ws ae = true <;> simp [h, ih]

theorem windowMinutes_split (rs : List Report) (lo mid hi : ℤ)
    (h1 : lo - 1 ≤ mid) (h2 : mid ≤ hi) :
    windowMinutes rs lo hi = windowMinutes rs lo mid + windowMinutes rs (mid + 1) hi := by
  rw [← sum_ite_windowMinutes rs lo hi, ← sum_ite_windowMinutes rs lo mid,
    ← sum_ite_windowMinutes rs (mid + 1) hi]
  induction rs with
  | nil => rfl
  | cons r rs ih =>
    simp only [List.map_cons, List.sum_cons]
    have hr : (if inWindow r lo hi then orZero r.time_spent else 0) =
        (if inWindow r lo mid then orZero r.time_spent else 0) +
          (if inWindow r (mid + 1) hi then orZero r.time_spent else 0) := by
      cases hd : r.date with
      | none =>
        rw [inWindow_none r lo hi hd, inWindow_none r lo mid hd,
          inWindow_none r (mid + 1) hi hd]
        simp
      | some d =>
        rw [inWindow_some r lo hi d hd, inWindow_some r lo mid d hd,
          inWindow_some r (mid + 1) hi d hd]
        by_cases c1 : lo ≤ d <;> by_cases c2 : d ≤ mid <;> by_cases c3 : mid + 1 ≤ d <;>
          by_cases c4 : d ≤ hi <;> simp [c1, c2, c3, c4] <;> omega
    omega

theorem mkWeekBucket_weekStart (rs : List Report) (s u : ℤ) (i : ℕ) :
    (mkWeekBucket rs s u i).weekStart = startOfWeekMon (addWeeks s i) := rfl

theorem mkWeekBucket_weekEnd (rs : List Report) (s u : ℤ) (i : ℕ) :
    (mkWeekBucket rs s u i).weekEnd = min (endOfWeekMon (addWeeks s i)) u := by
  rw [← ite_min]
  rfl

theorem mkWeekBucket_completionRate (rs : List Report) (s u : ℤ) (i : ℕ) :
    (mkWeekBucket rs s u i).completionRate =
      completionRateOf (mkWeekBucket rs s u i).completedCount (mkWeekBucket rs s u i).totalCount :=
  rfl

theorem mkWeekBucket_totalMinutes (rs : List Report) (s u : ℤ) (i : ℕ) :
    (mkWeekBucket rs s u i).totalMinutes =
      windowMinutes rs (startOfWeekMon (addWeeks s i)) (min (endOfWeekMon (addWeeks s i)) u) := by
  rw [← ite_min]
  show (rs.foldl
      (weekStep (startOfWeekMon (addWeeks s i))
        (if endOfWeekMon (addWeeks s i) < u then endOfWeekMon (addWeeks s i) else u))
      { days := (eachDayOfInterval (startOfWeekMon (addWeeks s i))
            (if endOfWeekMon (addWeeks s i) < u then endOfWeekMon (addWeeks s i) else u)).map
          (fun x => ⟨x, 0⟩)
        totalMin := 0, completed := 0, total := 0 }).totalMin = _
  rw [foldl_weekStep_totalMin]
  have hD : ((((eachDayOfInterval (startOfWeekMon (addWeeks s i))
        (if endOfWeekMon (addWeeks s i) < u then endOfWeekMon (addWeeks s i) else u)).map
          (fun x => (⟨x, 0⟩ : DayCell)))).map (fun c => c.date)) =
      eachDayOfInterval (startOfWeekMon (addWeeks s i))
        (if endOfWeekMon (addWeeks s i) < u then endOfWeekMon (addWeeks s i) else u) := by
    rw [List.map_map]
    exact List.map_id _
  rw [hD]
  have hpt : ∀ r : Report,
      dayContrib (startOfWeekMon (addWeeks s i))
          (if endOfWeekMon (addWeeks s i) < u then endOfWeekMon (addWeeks s i) else u)
          (eachDayOfInterval (startOfWeekMon (addWeeks s i))
            (if endOfWeekMon (addWeeks s i) < u then endOfWeekMon (addWeeks s i) else u)) r =
        if inWindow r (startOfWeekMon (addWeeks s i))
            (if endOfWeekMon (addWeeks s i) < u then endOfWeekMon (addWeeks s i) else u) then
          orZero r.time_spent
        else 0 := fun r => dayContrib_each _ _ r
  rw [List.map_congr_left (fun r _ => hpt r), sum_ite_windowMinutes]
  ring

theorem mkWeekBucket_totalCount (rs : List Report) (s u : ℤ) (i : ℕ) :
    (mkWeekBucket rs s u i).totalCount =
      rs.countP (fun r =>
        inWindow r (startOfWeekMon (addWeeks s i)) (min (endOfWeekMon (addWeeks s i)) u)) := by
  rw [← ite_min]
  show (rs.foldl
      (weekStep (startOfWeekMon (addWeeks s i))
        (if endOfWeekMon (addWeeks s i) < u then endOfWeekMon (addWeeks s i) else u))
      { days := (eachDayOfInterval (startOfWeekMon (addWeeks s i))
            (if endOfWeekMon (addWeeks s i) < u then endOfWeekMon (addWeeks s i) else u)).map
          (fun x => ⟨x, 0⟩)
        totalMin := 0, completed := 0, total := 0 }).total = _
  rw [foldl_weekStep_total]
  simp

theorem mkWeekBucket_completedCount (rs : List Report) (s u : ℤ) (i : ℕ) :
    (mkWeekBucket rs s u i).completedCount =
      rs.countP (fun r =>
        inWindow r (startOfWeekMon (addWeeks s i)) (min (endOfWeekMon (addWeeks s i)) u) &&
          (r.status == "completed")) := by
  rw [← ite_min]
  show (rs.foldl
      (weekStep (startOfWeekMon (addWeeks s i))
        (if endOfWeekMon (addWeeks s i) < u then endOfWeekMon (addWeeks s i) else u))
      { days := (eachDayOfInterval (startOfWeekMon (addWeeks s i))
            (if endOfWeekMon (addWeeks s i) < u then endOfWeekMon (addWeeks s i) else u)).map
          (fun x => ⟨x, 0⟩)
        totalMin := 0, completed := 0, total := 0 }).completed = _
  rw [foldl_weekStep_completed]
  simp

/-! ## Week-index arithmetic -/

theorem startOfWeekMon_le (d : ℤ) : startOfWeekMon d ≤ d := by
  unfold startOfWeekMon
  omega

theorem le_endOfWeekMon (d : ℤ) : d ≤ startOfWeekMon d + 6 := by
  unfold startOfWeekMon
  omega

theorem startOfWeekMon_add (d j : ℤ) : startOfWeekMon (d + 7 * j) = startOfWeekMon d + 7 * j := by
  unfold startOfWeekMon
  omega

theorem startOfWeekMon_idem (d : ℤ) : startOfWeekMon (startOfWeekMon d) = startOfWeekMon d := by
  unfold startOfWeekMon
  omega

theorem numWeeks_pos (s u : ℤ) : 1 ≤ numWeeks s u := le_max_left 1 _

theorem numWeeks_eq (s u : ℤ) (h : s ≤ u) : numWeeks s u = (u - s) / 7 + 1 := by
  unfold numWeeks differenceInWeeks
  rw [Int.tdiv_eq_ediv (by omega) (by norm_num)]
  have h7 : 0 ≤ (u - s) / 7 := Int.ediv_nonneg (by omega) (by norm_num)
  omega

theorem numWeeks_cond (s u : ℤ) (h : s ≤ u) (i : ℕ) (hi : (i : ℤ) < numWeeks s u) :
    addWeeks s i ≤ u := by
  rw [numWeeks_eq s u h] at hi
  unfold addWeeks
  omega

theorem bucketByWeek_eq_map (reports : List Report) (startDate endDate today : ℤ) :
    ∃ k : ℕ, bucketByWeek reports startDate endDate today =
        (List.range k).map (mkWeekBucket reports startDate (min today endDate)) ∧
      k ≤ (numWeeks startDate (min today endDate)).toNat ∧
      (∀ i : ℕ, i < k → addWeeks startDate (i : ℤ) ≤ min today endDate) ∧
      (k < (numWeeks startDate (min today endDate)).toNat →
        ¬(addWeeks startDate (k : ℤ) ≤ min today endDate)) := by
  obtain ⟨k, hkn, heq, hall, hstop⟩ := takeWhile_range_spec
    (fun (i : ℕ) => decide (addWeeks startDate (i : ℤ) ≤ min today endDate))
    ((numWeeks startDate (min today endDate)).toNat)
  refine ⟨k, ?_, hkn, ?_, ?_⟩
  · have hdef : bucketByWeek reports startDate endDate today =
        ((List.range ((numWeeks startDate (min today endDate)).toNat)).takeWhile
            (fun (i : ℕ) => decide (addWeeks startDate (i : ℤ) ≤ min today endDate))).map
          (mkWeekBucket reports startDate (min today endDate)) := rfl
    rw [hdef, heq]
  · intro i hi
    exact of_decide_eq_true (hall i hi)
  · intro hk
    exact of_decide_eq_false (hstop hk)

theorem mkWeekBucket_weekStart_idx (rs : List Report) (s u : ℤ) (k : ℕ) :
    (mkWeekBucket rs s u k).weekStart = startOfWeekMon s + 7 * (k : ℤ) := by
  rw [mkWeekBucket_weekStart]
  unfold addWeeks
  rw [startOfWeekMon_add]

theorem mkWeekBucket_weekEnd_idx (rs : List Report) (s u : ℤ) (k : ℕ) :
    (mkWeekBucket rs s u k).weekEnd = min u (startOfWeekMon s + 7 * (k : ℤ) + 6) := by
  rw [mkWeekBucket_weekEnd]
  unfold endOfWeekMon addWeeks
  rw [startOfWeekMon_add, min_comm]

theorem mkWeekBucket_totalMinutes_idx (rs : List Report) (s u : ℤ) (k : ℕ) :
    (mkWeekBucket rs s u k).totalMinutes =
      windowMinutes rs (startOfWeekMon s + 7 * (k : ℤ))
        (min u (startOfWeekMon s + 7 * (k : ℤ) + 6)) := by
  rw [mkWeekBucket_totalMinutes]
  unfold endOfWeekMon addWeeks
  rw [startOfWeekMon_add, min_comm]

theorem sum_weekBuckets_aux (rs : List Report) (s u : ℤ) (h : s ≤ u) (k : ℕ)
    (hk : (k : ℤ) ≤ numWeeks s u) :
    (((List.range k).map (mkWeekBucket rs s u)).map (fun b => b.totalMinutes)).sum =
      if k = 0 then 0
      else windowMinutes rs (startOfWeekMon s) (min u (startOfWeekMon s + 7 * (k : ℤ) - 1)) := by
  induction k with
  | zero => simp
  | succ k ih =>
    rw [List.range_succ, List.map_append, List.map_append, List.sum_append]
    rw [ih (by push_cast at hk ⊢; omega)]
    simp only [List.map_cons, List.map_nil, List.sum_cons, List.sum_nil]
    rw [mkWeekBucket_totalMinutes_idx]
    have hm_le : startOfWeekMon s ≤ s := startOfWeekMon_le s
    have hku : addWeeks s (k : ℤ) ≤ u := by
      apply numWeeks_cond s u h
      push_cast at hk
      omega
    unfold addWeeks at hku
    by_cases hk0 : k = 0
    · subst hk0
      rw [if_pos rfl, if_neg (show ¬(0 + 1 = 0) by omega)]
      have hb : min u (startOfWeekMon s + 7 * ((0 : ℕ) : ℤ) + 6) =
          min u (startOfWeekMon s + 7 * (((0 : ℕ) + 1 : ℕ) : ℤ) - 1) := by
        push_cast
        omega
      have ha : startOfWeekMon s + 7 * ((0 : ℕ) : ℤ) = startOfWeekMon s := by
        push_cast
        ring
      rw [ha] at hb ⊢
      rw [hb]
      ring
    · rw [if_neg hk0, if_neg (show ¬(k + 1 = 0) by omega)]
      have hmin1 : min u (startOfWeekMon s + 7 * (k : ℤ) - 1) =
          startOfWeekMon s + 7 * (k : ℤ) - 1 := by omega
      rw [hmin1]
      have h2 : min u (startOfWeekMon s + 7 * ((k + 1 : ℕ) : ℤ) - 1) =
          min u (startOfWeekMon s + 7 * (k : ℤ) + 6) := by
        push_cast
        omega
      rw [h2]
      rw [windowMinutes_split rs (startOfWeekMon s) (startOfWeekMon s + 7 * (k : ℤ) - 1)
        (min u (startOfWeekMon s + 7 * (k : ℤ) + 6)) (by omega) (by omega)]
      have h1 : startOfWeekMon s + 7 * (k : ℤ) - 1 + 1 = startOfWeekMon s + 7 * (k : ℤ) := by
        ring
      rw [h1]
      ring

/-- Claim C1, corrected.  The weekly pass covers the Monday-aligned window
`[startOfWeekMon range.start, min effectiveEnd (startOfWeekMon range.start +
7·numWeeks − 1)]`, not `[range.start, effectiveEnd]`: the first bucket starts
at the Monday of the week containing `range.start` (which can lie before
`range.start`), and when `range.start` sits late in its Monday week the last
produced bucket can end before `effectiveEnd`.  Over that Monday-aligned
window the totals are conserved. -/
theorem c1_weekly_sum_amended (reports : List Report) (startDate endDate today : ℤ)
    (hne : reports ≠ []) (hrange : startDate ≤ min today endDate) :
    ((bucketByWeek reports startDate endDate today).map (fun b => b.totalMinutes)).sum =
      windowMinutes reports (startOfWeekMon startDate)
        (min (min today endDate)
          (startOfWeekMon startDate + 7 * numWeeks startDate (min today endDate) - 1)) := by
  obtain ⟨k, heq, hkn, hall, hstop⟩ := bucketByWeek_eq_map reports startDate endDate today
  have hpos := numWeeks_pos startDate (min today endDate)
  have hk : k = (numWeeks startDate (min today endDate)).toNat := by
    rcases lt_or_eq_of_le hkn with hlt | he
    · exfalso
      apply hstop hlt
      apply numWeeks_cond _ _ hrange
      omega
    · exact he
  subst hk
  have hcast : (((numWeeks startDate (min today endDate)).toNat : ℤ)) =
      numWeeks startDate (min today endDate) := Int.toNat_of_nonneg (by omega)
  rw [heq, sum_weekBuckets_aux reports startDate (min today endDate) hrange _ (by omega)]
  rw [if_neg (by omega : ¬((numWeeks startDate (min today endDate)).toNat = 0))]
  rw [hcast]

/-- Claim C1 as stated is false: with `range.start` = Wednesday 2024‑01‑03 and
`effectiveEnd = today` = the same day, a 60-minute record dated Monday
2024‑01‑01 lies outside `[range.start, effectiveEnd]` yet lands in the single
produced bucket (whose Monday week starts 2024‑01‑01), so the bucket sum is
60 while the claimed record sum is 0. -/
theorem c1_counterexample :
    c1reports ≠ [] ∧
      ((bucketByWeek c1reports 19725 19725 19725).map (fun b => b.totalMinutes)).sum = 60 ∧
      windowMinutes c1reports 19725 (min 19725 19725) = 0 ∧
      ((bucketByWeek c1reports 19725 19725 19725).map (fun b => b.totalMinutes)).sum ≠
        windowMinutes c1reports 19725 (min 19725 19725) := by
  decide

/-- Witness for `c1_weekly_sum_amended` at a concrete input. -/
theorem c1_weekly_sum_amended_witness :
    c1reports ≠ [] ∧ (19725 : ℤ) ≤ min 19725 19725 ∧
      ((bucketByWeek c1reports 19725 19725 19725).map (fun b => b.totalMinutes)).sum =
        windowMinutes c1reports (startOfWeekMon 19725)
          (min (min 19725 19725)
            (startOfWeekMon 19725 + 7 * numWeeks 19725 (min 19725 19725) - 1)) :=
  ⟨by decide, by decide,
    c1_weekly_sum_amended c1reports 19725 19725 19725 (by decide) (by decide)⟩

theorem bucketByWeek_get (reports : List Report) (startDate endDate today : ℤ) (j : ℕ)
    (h : j < (bucketByWeek reports startDate endDate today).length) :
    (bucketByWeek reports startDate endDate today).get ⟨j, h⟩ =
        mkWeekBucket reports startDate (min today endDate) j ∧
      addWeeks startDate (j : ℤ) ≤ min today endDate := by
  obtain ⟨k, heq, hkn, hall, hstop⟩ := bucketByWeek_eq_map reports startDate endDate today
  have hj : j < k := by
    have hlen := congrArg List.length heq
    simp only [List.length_map, List.length_range] at hlen
    omega
  constructor
  · rw [List.get_of_eq heq]
    simp [List.get_eq_getElem]
  · exact hall j hj

/-- Claim C8, confirmed.  In every weekly bucket list: consecutive buckets
are contiguous (`weekEnd + 1 = next weekStart`) and strictly ascending by
week start, every non-final bucket spans a full Monday-to-Sunday week, and
every bucket starts on a Monday and spans between one and seven days (the
final bucket may be clipped by the effective end). -/
theorem c8_weekly_bucket_layout (reports : List Report) (startDate endDate today : ℤ) :
    (∀ i : ℕ, ∀ h : i + 1 < (bucketByWeek reports startDate endDate today).length,
      ((bucketByWeek reports startDate endDate today).get ⟨i, Nat.lt_of_succ_lt h⟩).weekEnd + 1 =
          ((bucketByWeek reports startDate endDate today).get ⟨i + 1, h⟩).weekStart ∧
        ((bucketByWeek reports startDate endDate today).get ⟨i, Nat.lt_of_succ_lt h⟩).weekStart <
          ((bucketByWeek reports startDate endDate today).get ⟨i + 1, h⟩).weekStart ∧
        ((bucketByWeek reports startDate endDate today).get ⟨i, Nat.lt_of_succ_lt h⟩).weekEnd =
          ((bucketByWeek reports startDate endDate today).get ⟨i, Nat.lt_of_succ_lt h⟩).weekStart +
            6) ∧
    (∀ j : ℕ, ∀ h : j < (bucketByWeek reports startDate endDate today).length,
      startOfWeekMon ((bucketByWeek reports startDate endDate today).get ⟨j, h⟩).weekStart =
          ((bucketByWeek reports startDate endDate today).get ⟨j, h⟩).weekStart ∧
        ((bucketByWeek reports startDate endDate today).get ⟨j, h⟩).weekStart ≤
          ((bucketByWeek reports startDate endDate today).get ⟨j, h⟩).weekEnd ∧
        ((bucketByWeek reports startDate endDate today).get ⟨j, h⟩).weekEnd ≤
          ((bucketByWeek reports startDate endDate today).get ⟨j, h⟩).weekStart + 6) := by
  have hm_le : startOfWeekMon startDate ≤ startDate := startOfWeekMon_le startDate
  constructor
  · intro i h
    obtain ⟨hgi, hci⟩ := bucketByWeek_get reports startDate endDate today i (Nat.lt_of_succ_lt h)
    obtain ⟨hgi1, hci1⟩ := bucketByWeek_get reports startDate endDate today (i + 1) h
    rw [hgi, hgi1, mkWeekBucket_weekStart_idx, mkWeekBucket_weekStart_idx,
      mkWeekBucket_weekEnd_idx]
    unfold addWeeks at hci hci1
    push_cast at hci1 ⊢
    refine ⟨by omega, by omega, by omega⟩
  · intro j h
    obtain ⟨hgj, hcj⟩ := bucketByWeek_get reports startDate endDate today j h
    rw [hgj, mkWeekBucket_weekStart_idx, mkWeekBucket_weekEnd_idx]
    unfold addWeeks at hcj
    refine ⟨?_, by omega, by omega⟩
    rw [show startOfWeekMon startDate + 7 * (j : ℤ) =
        startOfWeekMon startDate + 7 * (j : ℤ) from rfl]
    rw [startOfWeekMon_add, startOfWeekMon_idem]

/-- Witness for `c8_weekly_bucket_layout`: range `[day 0, day 13]` produces
two full-week buckets. -/
theorem c8_weekly_bucket_layout_witness :
    (((bucketByWeek ([] : List Report) 0 13 13).get ⟨0, by decide⟩).weekEnd + 1 =
        ((bucketByWeek ([] : List Report) 0 13 13).get ⟨1, by decide⟩).weekStart ∧
      ((bucketByWeek ([] : List Report) 0 13 13).get ⟨0, by decide⟩).weekStart <
        ((bucketByWeek ([] : List Report) 0 13 13).get ⟨1, by decide⟩).weekStart ∧
      ((bucketByWeek ([] : List Report) 0 13 13).get ⟨0, by decide⟩).weekEnd =
        ((bucketByWeek ([] : List Report) 0 13 13).get ⟨0, by decide⟩).weekStart + 6) ∧
    (startOfWeekMon ((bucketByWeek ([] : List Report) 0 13 13).get ⟨1, by decide⟩).weekStart =
        ((bucketByWeek ([] : List Report) 0 13 13).get ⟨1, by decide⟩).weekStart ∧
      ((bucketByWeek ([] : List Report) 0 13 13).get ⟨1, by decide⟩).weekStart ≤
        ((bucketByWeek ([] : List Report) 0 13 13).get ⟨1, by decide⟩).weekEnd ∧
      ((bucketByWeek ([] : List Report) 0 13 13).get ⟨1, by decide⟩).weekEnd ≤
        ((bucketByWeek ([] : List Report) 0 13 13).get ⟨1, by decide⟩).weekStart + 6) :=
  ⟨(c8_weekly_bucket_layout [] 0 13 13).1 0 (by decide),
    (c8_weekly_bucket_layout [] 0 13 13).2 1 (by decide)⟩

/-! ## Month-loop characterization -/

theorem monthStep_none (lo hi : ℤ) (acc : ℤ × ℕ × ℕ) (r : Report) (h : r.date = none) :
    monthStep lo hi acc r = acc := by
  unfold monthStep
  rw [h]

theorem monthStep_some (lo hi : ℤ) (acc : ℤ × ℕ × ℕ) (r : Report) (d : ℤ)
    (h : r.date = some d) :
    monthStep lo hi acc r =
      (if lo ≤ d ∧ d ≤ hi then
        (acc.1 + orZero r.time_spent,
          acc.2.1 + (if r.status = "completed" then 1 else 0),
          acc.2.2 + 1)
      else acc) := by
  unfold monthStep
  rw [h]

theorem monthStep_fst (lo hi : ℤ) (acc : ℤ × ℕ × ℕ) (r : Report) :
    (monthStep lo hi acc r).1 =
      acc.1 + (if inWindow r lo hi then orZero r.time_spent else 0) := by
  cases hd : r.date with
  | none =>
    rw [monthStep_none lo hi acc r hd, inWindow_none r lo hi hd]
    simp
  | some d =>
    rw [monthStep_some lo hi acc r d hd, inWindow_some r lo hi d hd]
    by_cases h1 : lo ≤ d ∧ d ≤ hi
    · rw [if_pos h1]
      have hb : (decide (lo ≤ d) && decide (d ≤ hi)) = true := by simp [h1.1, h1.2]
      rw [hb]
      simp
    · rw [if_neg h1]
      have hb : (decide (lo ≤ d) && decide (d ≤ hi)) = false := by simp; omega
      rw [hb]
      simp

theorem monthStep_completed (lo hi : ℤ) (acc : ℤ × ℕ × ℕ) (r : Report) :
    (monthStep lo hi acc r).2.1 =
      acc.2.1 + (if (inWindow r lo hi && (r.status == "completed")) then 1 else 0) := by
  cases hd : r.date with
  | none =>
    rw [monthStep_none lo hi acc r hd, inWindow_none r lo hi hd]
    simp
  | some d =>
    rw [monthStep_some lo hi acc r d hd, inWindow_some r lo hi d hd]
    by_cases h1 : lo ≤ d ∧ d ≤ hi
    · rw [if_pos h1]
      have hb : (decide (lo ≤ d) && decide (d ≤ hi)) = true := by simp [h1.1, h1.2]
      rw [hb]
      by_cases h3 : r.status = "completed" <;> simp [h3]
    · rw [if_neg h1]
      have hb : (decide (lo ≤ d) && decide (d ≤ hi)) = false := by simp; omega
      rw [hb]
      simp

theorem monthStep_total (lo hi : ℤ) (acc : ℤ × ℕ × ℕ) (r : Report) :
    (monthStep lo hi acc r).2.2 = acc.2.2 + (if inWindow r lo hi then 1 else 0) := by
  cases hd : r.date with
  | none =>
    rw [monthStep_none lo hi acc r hd, inWindow_none r lo hi hd]
    simp
  | some d =>
    rw [monthStep_some lo hi acc r d hd, inWindow_some r lo hi d hd]
    by_cases h1 : lo ≤ d ∧ d ≤ hi
    · rw [if_pos h1]
      have hb : (decide (lo ≤ d) && decide (d ≤ hi)) = true := by simp [h1.1, h1.2]
      rw [hb]
      simp
    · rw [if_neg h1]
      have hb : (decide (lo ≤ d) && decide (d ≤ hi)) = false := by simp; omega
      rw [hb]
      simp

theorem foldl_monthStep_fst (lo hi : ℤ) (rs : List Report) (acc : ℤ × ℕ × ℕ) :
    (rs.foldl (monthStep lo hi) acc).1 =
      acc.1 + (rs.map (fun r => if inWindow r lo hi then orZero r.time_spent else 0)).sum := by
  induction rs generalizing acc with
  | nil => simp
  | cons r rs ih =>
    rw [List.foldl_cons, ih, monthStep_fst]
    simp only [List.map_cons, List.sum_cons]
    ring

theorem foldl_monthStep_completed (lo hi : ℤ) (rs : List Report) (acc : ℤ × ℕ × ℕ) :
    (rs.foldl (monthStep lo hi) acc).2.1 =
      acc.2.1 + rs.countP (fun r => inWindow r lo hi && (r.status == "completed")) := by
  induction rs generalizing acc with
  | nil => simp
  | cons r rs ih =>
    rw [List.foldl_cons, ih, monthStep_completed, List.countP_cons]
    by_cases h : (inWindow r lo hi && (r.status == "completed")) = true <;> simp [h] <;> omega

theorem foldl_monthStep_total (lo hi : ℤ) (rs : List Report) (acc : ℤ × ℕ × ℕ) :
    (rs.foldl (monthStep lo hi) acc).2.2 =
      acc.2.2 + rs.countP (fun r => inWindow r lo hi) := by
  induction rs generalizing acc with
  | nil => simp
  | cons r rs ih =>
    rw [List.foldl_cons, ih, monthStep_total, List.countP_cons]
    by_cases h : inWindow r lo hi = true <;> simp [h] <;> omega

theorem mkMonthBucket_completionRate (rs : List Report) (s ae : ℤ) (i : ℕ) :
    (mkMonthBucket rs s ae i).completionRate =
      completionRateOf (mkMonthBucket rs s ae i).completedCount
        (mkMonthBucket rs s ae i).totalCount := rfl

theorem mkMonthBucket_totalMinutes (rs : List Report) (s ae : ℤ) (i : ℕ) :
    (mkMonthBucket rs s ae i).totalMinutes =
      windowMinutes rs (startOfMonth (addMonths s i)) (min (endOfMonth (addMonths s i)) ae) := by
  rw [← ite_min]
  show (rs.foldl
      (monthStep (startOfMonth (addMonths s i))
        (if endOfMonth (addMonths s i) < ae then endOfMonth (addMonths s i) else ae))
      (0, 0, 0)).1 = _
  rw [foldl_monthStep_fst, sum_ite_windowMinutes]
  ring

theorem mkMonthBucket_totalCount (rs : List Report) (s ae : ℤ) (i : ℕ) :
    (mkMonthBucket rs s ae i).totalCount =
      rs.countP (fun r =>
        inWindow r (startOfMonth (addMonths s i)) (min (endOfMonth (addMonths s i)) ae)) := by
  rw [← ite_min]
  show (rs.foldl
      (monthStep (startOfMonth (addMonths s i))
        (if endOfMonth (addMonths s i) < ae then endOfMonth (addMonths s i) else ae))
      (0, 0, 0)).2.2 = _
  rw [foldl_monthStep_total]
  simp

theorem mkMonthBucket_completedCount (rs : List Report) (s ae : ℤ) (i : ℕ) :
    (mkMonthBucket rs s ae i).completedCount =
      rs.countP (fun r =>
        inWindow r (startOfMonth (addMonths s i)) (min (endOfMonth (addMonths s i)) ae) &&
          (r.status == "completed")) := by
  rw [← ite_min]
  show (rs.foldl
      (monthStep (startOfMonth (addMonths s i))
        (if endOfMonth (addMonths s i) < ae then endOfMonth (addMonths s i) else ae))
      (0, 0, 0)).2.1 = _
  rw [foldl_monthStep_completed]
  simp

theorem bucketByMonth_eq_map (reports : List Report) (startDate endDate today : ℤ) :
    ∃ k : ℕ, bucketByMonth reports startDate endDate today =
        (List.range k).map
          (mkMonthBucket reports startDate (if today < endDate then today else endDate)) ∧
      k ≤ (numMonths startDate (if today < endDate then today else endDate)).toNat ∧
      (∀ i : ℕ, i < k →
        addMonths startDate (i : ℤ) ≤ (if today < endDate then today else endDate)) ∧
      (k < (numMonths startDate (if today < endDate then today else endDate)).toNat →
        ¬(addMonths startDate (k : ℤ) ≤ (if today < endDate then today else endDate))) := by
  obtain ⟨k, hkn, heq, hall, hstop⟩ := takeWhile_range_spec
    (fun (i : ℕ) =>
      decide (addMonths startDate (i : ℤ) ≤ (if today < endDate then today else endDate)))
    ((numMonths startDate (if today < endDate then today else endDate)).toNat)
  refine ⟨k, ?_, hkn, ?_, ?_⟩
  · have hdef : bucketByMonth reports startDate endDate today =
        ((List.range
            ((numMonths startDate (if today < endDate then today else endDate)).toNat)).takeWhile
            (fun (i : ℕ) =>
              decide (addMonths startDate (i : ℤ) ≤
                (if today < endDate then today else endDate)))).map
          (mkMonthBucket reports startDate (if today < endDate then today else endDate)) := rfl
    rw [hdef, heq]
  · intro i hi
    exact of_decide_eq_true (hall i hi)
  · intro hk
    exact of_decide_eq_false (hstop hk)

/-! ## Completion-rate arithmetic -/

theorem completionRateOf_zero (c : ℕ) : completionRateOf c 0 = 0 := rfl

theorem completionRateOf_le_100 (c t : ℕ) (h : c ≤ t) : completionRateOf c t ≤ 100 := by
  unfold completionRateOf
  split_ifs with ht
  · have hlt := (Nat.div_lt_iff_lt_mul (show 0 < 2 * t by omega)).2
      (show 200 * c + t < 101 * (2 * t) by omega)
    omega
  · omega

theorem completionRateOf_eq_floor (c t : ℕ) (h : 0 < t) :
    (completionRateOf c t : ℤ) = ⌊(c : ℚ) / (t : ℚ) * 100 + 1 / 2⌋ := by
  unfold completionRateOf
  rw [if_pos h]
  have hdm := Nat.div_add_mod (200 * c + t) (2 * t)
  have hml := Nat.mod_lt (200 * c + t) (show 0 < 2 * t by omega)
  set q := (200 * c + t) / (2 * t) with hq
  have hb1 : 2 * t * q ≤ 200 * c + t := by omega
  have hb2 : 200 * c + t < 2 * t * q + 2 * t := by omega
  have ht2 : (0 : ℚ) < ((2 * t : ℕ) : ℚ) := by
    have : (0 : ℕ) < 2 * t := by omega
    exact_mod_cast this
  have htq : ((t : ℕ) : ℚ) ≠ 0 := by
    have : t ≠ 0 := by omega
    exact_mod_cast this
  have hx : (c : ℚ) / (t : ℚ) * 100 + 1 / 2 = ((200 * c + t : ℕ) : ℚ) / ((2 * t : ℕ) : ℚ) := by
    push_cast
    field_simp
    ring
  rw [hx]
  symm
  rw [Int.floor_eq_iff]
  constructor
  · rw [le_div_iff ht2]
    have hn : q * (2 * t) ≤ 200 * c + t := by
      rw [Nat.mul_comm]
      exact hb1
    exact_mod_cast hn
  · rw [div_lt_iff ht2]
    have hn : 200 * c + t < (q + 1) * (2 * t) := by
      have he : (q + 1) * (2 * t) = 2 * t * q + 2 * t := by ring
      rw [he]
      exact hb2
    exact_mod_cast hn

theorem countP_and_le (rs : List Report) (p q : Report → Bool) :
    rs.countP (fun r => p r && q r) ≤ rs.countP p := by
  induction rs with
  | nil => simp
  | cons r rs ih =>
    rw [List.countP_cons, List.countP_cons]
    by_cases hp : p r = true
    · by_cases hq : q r = true <;> simp [hp, hq] <;> omega
    · simp [hp]
      omega

/-- Claim C3, confirmed.  Every weekly and monthly bucket's `completionRate`
is `completedCount / totalCount * 100` rounded to the nearest integer (ties
up, the `toFixed(0)` rounding), lies in `[0, 100]` (`ℕ`-valued, hence `≥ 0`),
and is `0` whenever the bucket matched no records. -/
theorem c3_completion_rate_bounds (reports : List Report) (startDate endDate today : ℤ) :
    (∀ b ∈ bucketByWeek reports startDate endDate today,
      b.completionRate = completionRateOf b.completedCount b.totalCount ∧
        b.completedCount ≤ b.totalCount ∧
        b.completionRate ≤ 100 ∧
        (0 < b.totalCount →
          (b.completionRate : ℤ) =
            ⌊(b.completedCount : ℚ) / (b.totalCount : ℚ) * 100 + 1 / 2⌋) ∧
        (b.totalCount = 0 → b.completionRate = 0)) ∧
    (∀ b ∈ bucketByMonth reports startDate endDate today,
      b.completionRate = completionRateOf b.completedCount b.totalCount ∧
        b.completedCount ≤ b.totalCount ∧
        b.completionRate ≤ 100 ∧
        (0 < b.totalCount →
          (b.completionRate : ℤ) =
            ⌊(b.completedCount : ℚ) / (b.totalCount : ℚ) * 100 + 1 / 2⌋) ∧
        (b.totalCount = 0 → b.completionRate = 0)) := by
  constructor
  · intro b hb
    obtain ⟨k, heq, -, -, -⟩ := bucketByWeek_eq_map reports startDate endDate today
    rw [heq] at hb
    obtain ⟨i, -, rfl⟩ := List.mem_map.1 hb
    have hle : (mkWeekBucket reports startDate (min today endDate) i).completedCount ≤
        (mkWeekBucket reports startDate (min today endDate) i).totalCount := by
      rw [mkWeekBucket_completedCount, mkWeekBucket_totalCount]
      exact countP_and_le reports _ _
    refine ⟨mkWeekBucket_completionRate reports startDate (min today endDate) i, hle, ?_, ?_, ?_⟩
    · rw [mkWeekBucket_completionRate]
      exact completionRateOf_le_100 _ _ hle
    · intro hpos
      rw [mkWeekBucket_completionRate]
      exact completionRateOf_eq_floor _ _ hpos
    · intro h0
      rw [mkWeekBucket_completionRate, h0]
      exact completionRateOf_zero _
  · intro b hb
    obtain ⟨k, heq, -, -, -⟩ := bucketByMonth_eq_map reports startDate endDate today
    rw [heq] at hb
    obtain ⟨i, -, rfl⟩ := List.mem_map.1 hb
    have hle : (mkMonthBucket reports startDate (if today < endDate then today else endDate)
          i).completedCount ≤
        (mkMonthBucket reports startDate (if today < endDate then today else endDate)
          i).totalCount := by
      rw [mkMonthBucket_completedCount, mkMonthBucket_totalCount]
      exact countP_and_le reports _ _
    refine ⟨mkMonthBucket_completionRate reports startDate _ i, hle, ?_, ?_, ?_⟩
    · rw [mkMonthBucket_completionRate]
      exact completionRateOf_le_100 _ _ hle
    · intro hpos
      rw [mkMonthBucket_completionRate]
      exact completionRateOf_eq_floor _ _ hpos
    · intro h0
      rw [mkMonthBucket_completionRate, h0]
      exact completionRateOf_zero _

/-- Witness for `c3_completion_rate_bounds` on the 20-record January 2024
data set: its first weekly and first monthly bucket. -/
theorem c3_completion_rate_bounds_witness :
    ((mkWeekBucket c7reports 19723 (min 19742 19742) 0).completionRate =
        completionRateOf (mkWeekBucket c7reports 19723 (min 19742 19742) 0).completedCount
          (mkWeekBucket c7reports 19723 (min 19742 19742) 0).totalCount ∧
      (mkWeekBucket c7reports 19723 (min 19742 19742) 0).completedCount ≤
        (mkWeekBucket c7reports 19723 (min 19742 19742) 0).totalCount ∧
      (mkWeekBucket c7reports 19723 (min 19742 19742) 0).completionRate ≤ 100 ∧
      (0 < (mkWeekBucket c7reports 19723 (min 19742 19742) 0).totalCount →
        ((mkWeekBucket c7reports 19723 (min 19742 19742) 0).completionRate : ℤ) =
          ⌊((mkWeekBucket c7reports 19723 (min 19742 19742) 0).completedCount : ℚ) /
              ((mkWeekBucket c7reports 19723 (min 19742 19742) 0).totalCount : ℚ) * 100 +
            1 / 2⌋) ∧
      ((mkWeekBucket c7reports 19723 (min 19742 19742) 0).totalCount = 0 →
        (mkWeekBucket c7reports 19723 (min 19742 19742) 0).completionRate = 0)) ∧
    ((mkMonthBucket c7reports 19723 (if (19742 : ℤ) < 19742 then 19742 else 19742)
          0).completionRate =
        completionRateOf
          (mkMonthBucket c7reports 19723 (if (19742 : ℤ) < 19742 then 19742 else 19742)
            0).completedCount
          (mkMonthBucket c7reports 19723 (if (19742 : ℤ) < 19742 then 19742 else 19742)
            0).totalCount ∧
      (mkMonthBucket c7reports 19723 (if (19742 : ℤ) < 19742 then 19742 else 19742)
          0).completedCount ≤
        (mkMonthBucket c7reports 19723 (if (19742 : ℤ) < 19742 then 19742 else 19742)
          0).totalCount ∧
      (mkMonthBucket c7reports 19723 (if (19742 : ℤ) < 19742 then 19742 else 19742)
          0).completionRate ≤ 100 ∧
      (0 < (mkMonthBucket c7reports 19723 (if (19742 : ℤ) < 19742 then 19742 else 19742)
            0).totalCount →
        ((mkMonthBucket c7reports 19723 (if (19742 : ℤ) < 19742 then 19742 else 19742)
              0).completionRate : ℤ) =
          ⌊((mkMonthBucket c7reports 19723 (if (19742 : ℤ) < 19742 then 19742 else 19742)
                  0).completedCount : ℚ) /
                ((mkMonthBucket c7reports 19723 (if (19742 : ℤ) < 19742 then 19742 else 19742)
                  0).totalCount : ℚ) * 100 +
            1 / 2⌋) ∧
      ((mkMonthBucket c7reports 19723 (if (19742 : ℤ) < 19742 then 19742 else 19742)
          0).totalCount = 0 →
        (mkMonthBucket c7reports 19723 (if (19742 : ℤ) < 19742 then 19742 else 19742)
          0).completionRate = 0)) :=
  ⟨(c3_completion_rate_bounds c7reports 19723 19742 19742).1 _ (by decide),
    (c3_completion_rate_bounds c7reports 19723 19742 19742).2 _ (by decide)⟩

/-! ## Degenerate range (claim C2) -/

/-- Claim C2 as stated is false: with `range.start` (day 1) after `range.end`
(day 0) both passes return an empty sequence — zero buckets, not a single
degenerate bucket. -/
theorem c2_counterexample :
    (bucketByWeek [] 1 0 0).length = 0 ∧ (bucketByMonth [] 1 0 0).length = 0 ∧
      ¬((bucketByWeek [] 1 0 0).length = 1) ∧ ¬((bucketByMonth [] 1 0 0).length = 1) := by
  decide

/-- Claim C2, corrected.  When `range.start` is after `range.end` both the
weekly and the monthly pass return an empty bucket sequence (the loop breaks
at index 0), rather than failing or producing a degenerate bucket. -/
theorem c2_empty_range_amended (reports : List Report) (startDate endDate today : ℤ)
    (h : endDate < startDate) :
    bucketByWeek reports startDate endDate today = [] ∧
      bucketByMonth reports startDate endDate today = [] := by
  constructor
  · obtain ⟨k, heq, hkn, hall, hstop⟩ := bucketByWeek_eq_map reports startDate endDate today
    have hk0 : k = 0 := by
      by_contra hk
      have h0 := hall 0 (by omega)
      unfold addWeeks at h0
      have hminr : min today endDate ≤ endDate := min_le_right _ _
      push_cast at h0
      omega
    rw [heq, hk0]
    rfl
  · obtain ⟨k, heq, hkn, hall, hstop⟩ := bucketByMonth_eq_map reports startDate endDate today
    have hk0 : k = 0 := by
      by_contra hk
      have h0 := hall 0 (by omega)
      have hcast : ((0 : ℕ) : ℤ) = 0 := rfl
      rw [hcast, addMonths_zero] at h0
      have hminr : (if today < endDate then today else endDate) ≤ endDate := by
        split_ifs <;> omega
      omega
    rw [heq, hk0]
    rfl

/-- Witness for `c2_empty_range_amended`. -/
theorem c2_empty_range_amended_witness :
    (0 : ℤ) < 1 ∧ bucketByWeek [] 1 0 0 = [] ∧ bucketByMonth [] 1 0 0 = [] :=
  ⟨by decide, (c2_empty_range_amended [] 1 0 0 (by decide)).1,
    (c2_empty_range_amended [] 1 0 0 (by decide)).2⟩

/-! ## Duration handling (claim C4) -/

/-- Claim C4 as stated is false for negative durations: a record with
`time_spent = −60` contributes −60 minutes to the weekly bucket total, the
daily breakdown and the monthly bucket total, because JS `(x || 0)` only
replaces falsy values (`null`, `0`, `NaN`), not negative numbers. -/
theorem c4_counterexample :
    (bucketByWeek c4reports 19723 19723 19723).map (fun b => b.totalMinutes) = [-60] ∧
      (bucketByWeek c4reports 19723 19723 19723).map
        (fun b => b.days.map (fun c => c.minutes)) = [[-60]] ∧
      (bucketByMonth c4reports 19723 19723 19723).map (fun b => b.totalMinutes) = [-60] ∧
      ¬((bucketByWeek c4reports 19723 19723 19723).map (fun b => b.totalMinutes) = [0]) := by
  decide

theorem weekStep_fillMissing (ws ae : ℤ) (acc : WeekAcc) (r : Report) :
    weekStep ws ae acc (fillMissing r) = weekStep ws ae acc r := by
  cases hd : r.date with
  | none =>
    rw [weekStep_none ws ae acc (fillMissing r) (show (fillMissing r).date = none from hd),
      weekStep_none ws ae acc r hd]
  | some d =>
    rw [weekStep_some ws ae acc (fillMissing r) d (show (fillMissing r).date = some d from hd),
      weekStep_some ws ae acc r d hd]
    have h1 : orZero (fillMissing r).time_spent = orZero r.time_spent := by
      unfold fillMissing orZero
      simp
    have h2 : (fillMissing r).status = r.status := rfl
    rw [h1, h2]

theorem foldl_weekStep_fillMissing (ws ae : ℤ) (rs : List Report) (acc : WeekAcc) :
    (rs.map fillMissing).foldl (weekStep ws ae) acc = rs.foldl (weekStep ws ae) acc := by
  induction rs generalizing acc with
  | nil => rfl
  | cons r rs ih =>
    rw [List.map_cons, List.foldl_cons, List.foldl_cons, weekStep_fillMissing, ih]

theorem mkWeekBucket_fillMissing (rs : List Report) (s u : ℤ) (i : ℕ) :
    mkWeekBucket (rs.map fillMissing) s u i = mkWeekBucket rs s u i := by
  simp only [mkWeekBucket]
  rw [foldl_weekStep_fillMissing]

theorem monthStep_fillMissing (lo hi : ℤ) (acc : ℤ × ℕ × ℕ) (r : Report) :
    monthStep lo hi acc (fillMissing r) = monthStep lo hi acc r := by
  cases hd : r.date with
  | none =>
    rw [monthStep_none lo hi acc (fillMissing r) (show (fillMissing r).date = none from hd),
      monthStep_none lo hi acc r hd]
  | some d =>
    rw [monthStep_some lo hi acc (fillMissing r) d (show (fillMissing r).date = some d from hd),
      monthStep_some lo hi acc r d hd]
    have h1 : orZero (fillMissing r).time_spent = orZero r.time_spent := by
      unfold fillMissing orZero
      simp
    have h2 : (fillMissing r).status = r.status := rfl
    rw [h1, h2]

theorem foldl_monthStep_fillMissing (lo hi : ℤ) (rs : List Report) (acc : ℤ × ℕ × ℕ) :
    (rs.map fillMissing).foldl (monthStep lo hi) acc = rs.foldl (monthStep lo hi) acc := by
  induction rs generalizing acc with
  | nil => rfl
  | cons r rs ih =>
    rw [List.map_cons, List.foldl_cons, List.foldl_cons, monthStep_fillMissing, ih]

theorem mkMonthBucket_fillMissing (rs : List Report) (s ae : ℤ) (i : ℕ) :
    mkMonthBucket (rs.map fillMissing) s ae i = mkMonthBucket rs s ae i := by
  simp only [mkMonthBucket]
  rw [foldl_monthStep_fillMissing]

/-- Claim C4, corrected.  A missing (`null`) `time_spent` is treated exactly
like `0` by both bucketing passes (replacing it by `some 0` changes nothing
anywhere — totals, counts, daily breakdown); a negative `time_spent` is NOT
treated as zero but contributes its negative value (see
`c4_counterexample`). -/
theorem c4_missing_duration_amended (reports : List Report) (startDate endDate today : ℤ) :
    bucketByWeek (reports.map fillMissing) startDate endDate today =
        bucketByWeek reports startDate endDate today ∧
      bucketByMonth (reports.map fillMissing) startDate endDate today =
        bucketByMonth reports startDate endDate today := by
  constructor
  · have hL : bucketByWeek (reports.map fillMissing) startDate endDate today =
        ((List.range ((numWeeks startDate (min today endDate)).toNat)).takeWhile
            (fun (i : ℕ) => decide (addWeeks startDate (i : ℤ) ≤ min today endDate))).map
          (mkWeekBucket (reports.map fillMissing) startDate (min today endDate)) := rfl
    have hR : bucketByWeek reports startDate endDate today =
        ((List.range ((numWeeks startDate (min today endDate)).toNat)).takeWhile
            (fun (i : ℕ) => decide (addWeeks startDate (i : ℤ) ≤ min today endDate))).map
          (mkWeekBucket reports startDate (min today endDate)) := rfl
    rw [hL, hR]
    exact List.map_congr_left
      (fun i _ => mkWeekBucket_fillMissing reports startDate (min today endDate) i)
  · have hL : bucketByMonth (reports.map fillMissing) startDate endDate today =
        ((List.range
            ((numMonths startDate (if today < endDate then today else endDate)).toNat)).takeWhile
            (fun (i : ℕ) =>
              decide (addMonths startDate (i : ℤ) ≤
                (if today < endDate then today else endDate)))).map
          (mkMonthBucket (reports.map fillMissing) startDate
            (if today < endDate then today else endDate)) := rfl
    have hR : bucketByMonth reports startDate endDate today =
        ((List.range
            ((numMonths startDate (if today < endDate then today else endDate)).toNat)).takeWhile
            (fun (i : ℕ) =>
              decide (addMonths startDate (i : ℤ) ≤
                (if today < endDate then today else endDate)))).map
          (mkMonthBucket reports startDate (if today < endDate then today else endDate)) := rfl
    rw [hL, hR]
    exact List.map_congr_left
      (fun i _ => mkMonthBucket_fillMissing reports startDate _ i)

/-! ## Records with unparseable dates (claim C5) -/

theorem foldl_weekStep_filterSome (ws ae : ℤ) (rs : List Report) (acc : WeekAcc) :
    (rs.filter (fun r => r.date.isSome)).foldl (weekStep ws ae) acc =
      rs.foldl (weekStep ws ae) acc := by
  induction rs generalizing acc with
  | nil => rfl
  | cons r rs ih =>
    rw [List.filter_cons]
    cases hd : r.date with
    | none =>
      rw [if_neg (by simp [hd]), List.foldl_cons, weekStep_none ws ae acc r hd, ih]
    | some d =>
      rw [if_pos (by simp [hd]), List.foldl_cons, List.foldl_cons, ih]

theorem mkWeekBucket_filterSome (rs : List Report) (s u : ℤ) (i : ℕ) :
    mkWeekBucket (rs.filter (fun r => r.date.isSome)) s u i = mkWeekBucket rs s u i := by
  simp only [mkWeekBucket]
  rw [foldl_weekStep_filterSome]

theorem foldl_monthStep_filterSome (lo hi : ℤ) (rs : List Report) (acc : ℤ × ℕ × ℕ) :
    (rs.filter (fun r => r.date.isSome)).foldl (monthStep lo hi) acc =
      rs.foldl (monthStep lo hi) acc := by
  induction rs generalizing acc with
  | nil => rfl
  | cons r rs ih =>
    rw [List.filter_cons]
    cases hd : r.date with
    | none =>
      rw [if_neg (by simp [hd]), List.foldl_cons, monthStep_none lo hi acc r hd, ih]
    | some d =>
      rw [if_pos (by simp [hd]), List.foldl_cons, List.foldl_cons, ih]

theorem mkMonthBucket_filterSome (rs : List Report) (s ae : ℤ) (i : ℕ) :
    mkMonthBucket (rs.filter (fun r => r.date.isSome)) s ae i = mkMonthBucket rs s ae i := by
  simp only [mkMonthBucket]
  rw [foldl_monthStep_filterSome]

/-- Claim C5, confirmed.  Records whose `date` does not parse (`Invalid
Date`) contribute nothing to any weekly or monthly bucket: dropping them
leaves both bucket lists unchanged — minutes, completed counts, total counts
and daily breakdowns included.  Both passes are total functions of their
input (the `NaN` date simply fails every interval test), so no exception
arises. -/
theorem c5_invalid_date_excluded (reports : List Report) (startDate endDate today : ℤ) :
    bucketByWeek (reports.filter (fun r => r.date.isSome)) startDate endDate today =
        bucketByWeek reports startDate endDate today ∧
      bucketByMonth (reports.filter (fun r => r.date.isSome)) startDate endDate today =
        bucketByMonth reports startDate endDate today := by
  constructor
  · have hL : bucketByWeek (reports.filter (fun r => r.date.isSome)) startDate endDate today =
        ((List.range ((numWeeks startDate (min today endDate)).toNat)).takeWhile
            (fun (i : ℕ) => decide (addWeeks startDate (i : ℤ) ≤ min today endDate))).map
          (mkWeekBucket (reports.filter (fun r => r.date.isSome)) startDate
            (min today endDate)) := rfl
    have hR : bucketByWeek reports startDate endDate today =
        ((List.range ((numWeeks startDate (min today endDate)).toNat)).takeWhile
            (fun (i : ℕ) => decide (addWeeks startDate (i : ℤ) ≤ min today endDate))).map
          (mkWeekBucket reports startDate (min today endDate)) := rfl
    rw [hL, hR]
    exact List.map_congr_left
      (fun i _ => mkWeekBucket_filterSome reports startDate (min today endDate) i)
  · have hL : bucketByMonth (reports.filter (fun r => r.date.isSome)) startDate endDate today =
        ((List.range
            ((numMonths startDate (if today < endDate then today else endDate)).toNat)).takeWhile
            (fun (i : ℕ) =>
              decide (addMonths startDate (i : ℤ) ≤
                (if today < endDate then today else endDate)))).map
          (mkMonthBucket (reports.filter (fun r => r.date.isSome)) startDate
            (if today < endDate then today else endDate)) := rfl
    have hR : bucketByMonth reports startDate endDate today =
        ((List.range
            ((numMonths startDate (if today < endDate then today else endDate)).toNat)).takeWhile
            (fun (i : ℕ) =>
              decide (addMonths startDate (i : ℤ) ≤
                (if today < endDate then today else endDate)))).map
          (mkMonthBucket reports startDate (if today < endDate then today else endDate)) := rfl
    rw [hL, hR]
    exact List.map_congr_left
      (fun i _ => mkMonthBucket_filterSome reports startDate _ i)

/-! ## Tag / tool tally correctness (claim C6) -/

theorem tallyCount_nil (k : String) : tallyCount [] k = 0 := rfl

theorem tallyCount_cons (p : String × ℕ) (m : List (String × ℕ)) (k : String) :
    tallyCount (p :: m) k = (if p.1 = k then p.2 else 0) + tallyCount m k := by
  unfold tallyCount
  rw [List.filter_cons]
  by_cases h : p.1 = k
  · rw [if_pos (by simp [h]), if_pos h]
    simp
  · rw [if_neg (by simp [h]), if_neg h]
    simp

theorem bump_keys (m : List (String × ℕ)) (k : String) :
    (bump m k).map (fun p => p.1) =
      if m.any (fun p => p.1 == k) then m.map (fun p => p.1)
      else m.map (fun p => p.1) ++ [k] := by
  unfold bump
  split_ifs with h
  · rw [List.map_map]
    apply List.map_congr_left
    intro p _
    by_cases hp : p.1 = k <;> simp [hp]
  · simp

theorem bump_keys_nodup (m : List (String × ℕ)) (k : String)
    (hnd : (m.map (fun p => p.1)).Nodup) : ((bump m k).map (fun p => p.1)).Nodup := by
  rw [bump_keys]
  split_ifs with h
  · exact hnd
  · rw [List.nodup_append]
    refine ⟨hnd, List.nodup_singleton k, ?_⟩
    intro a ha hb
    rcases List.mem_singleton.1 hb with rfl
    obtain ⟨p, hp, hpk⟩ := List.mem_map.1 ha
    exact h (List.any_eq_true.2 ⟨p, hp, by simp [hpk]⟩)

theorem tallyCount_mapinc (m : List (String × ℕ)) (k k2 : String) :
    tallyCount (m.map (fun p => if p.1 = k then (p.1, p.2 + 1) else p)) k2 =
      tallyCount m k2 + (if k2 = k then (m.map (fun p => p.1)).count k else 0) := by
  induction m with
  | nil => simp [tallyCount]
  | cons p ps ih =>
    simp only [List.map_cons]
    rw [tallyCount_cons, tallyCount_cons, ih]
    simp only [List.count_cons]
    by_cases h2 : k2 = k
    · subst h2
      by_cases hp : p.1 = k2 <;> simp [hp] <;> omega
    · have hk : ¬(k = k2) := fun hh => h2 hh.symm
      by_cases hp : p.1 = k <;> by_cases h1 : p.1 = k2
      · exact absurd (by rw [← h1, hp]) h2
      · simp [hp, h1, h2, hk]
      · simp [hp, h1, h2, hk]
      · simp [hp, h1, h2, hk]

theorem bump_count (m : List (String × ℕ)) (k k2 : String)
    (hnd : (m.map (fun p => p.1)).Nodup) :
    tallyCount (bump m k) k2 = tallyCount m k2 + (if k2 = k then 1 else 0) := by
  unfold bump
  by_cases h : (m.any fun p => p.1 == k) = true
  · rw [if_pos h, tallyCount_mapinc]
    by_cases h2 : k2 = k
    · subst h2
      rw [if_pos rfl, if_pos rfl]
      have hmem : k2 ∈ m.map (fun p => p.1) := by
        simp only [List.any_eq_true, beq_iff_eq] at h
        obtain ⟨p, hp, hpk⟩ := h
        exact List.mem_map.2 ⟨p, hp, hpk⟩
      rw [List.count_eq_one_of_mem hnd hmem]
    · rw [if_neg h2, if_neg h2]
  · rw [if_neg h]
    have happ : tallyCount (m ++ [(k, 1)]) k2 = tallyCount m k2 + tallyCount [(k, 1)] k2 := by
      unfold tallyCount
      rw [List.filter_append, List.map_append, List.sum_append]
    rw [happ, tallyCount_cons, tallyCount_nil]
    by_cases h2 : k2 = k
    · rw [if_pos (show (k, 1).1 = k2 from h2.symm), if_pos h2]
      try rfl
      try simp
    · rw [if_neg (show ¬((k, 1) : String × ℕ).1 = k2 from fun hh => h2 hh.symm), if_neg h2]
      try rfl
      try simp

theorem foldl_bump_nodup (labels : List String) (m : List (String × ℕ))
    (hnd : (m.map (fun p => p.1)).Nodup) :
    ((labels.foldl bump m).map (fun p => p.1)).Nodup := by
  induction labels generalizing m with
  | nil => exact hnd
  | cons l ls ih =>
    rw [List.foldl_cons]
    exact ih _ (bump_keys_nodup m l hnd)

theorem foldl_bump_count (labels : List String) (m : List (String × ℕ)) (k2 : String)
    (hnd : (m.map (fun p => p.1)).Nodup) :
    tallyCount (labels.foldl bump m) k2 = tallyCount m k2 + labels.count k2 := by
  induction labels generalizing m with
  | nil => simp
  | cons l ls ih =>
    rw [List.foldl_cons, ih _ (bump_keys_nodup m l hnd), bump_count m l k2 hnd,
      List.count_cons]
    by_cases h : k2 = l
    · subst h
      simp only [beq_self_eq_true, eq_self_iff_true, if_true]
      omega
    · have hne : ¬(l = k2) := fun hh => h hh.symm
      simp only [beq_iff_eq, h, hne, if_false]
      omega

theorem tallyField_count (get : Report → Option String) (rs : List Report) (k2 : String) :
    tallyCount (tallyField get rs) k2 = labelOccurrences get rs k2 := by
  have main : ∀ m : List (String × ℕ), (m.map (fun p => p.1)).Nodup →
      tallyCount (rs.foldl (fun m r => (fieldLabels (get r)).foldl bump m) m) k2 =
        tallyCount m k2 + (rs.map (fun r => (fieldLabels (get r)).count k2)).sum := by
    induction rs with
    | nil =>
      intro m hnd
      simp
    | cons r rs ih =>
      intro m hnd
      rw [List.foldl_cons, ih _ (foldl_bump_nodup _ m hnd), foldl_bump_count _ m k2 hnd]
      simp only [List.map_cons, List.sum_cons]
      omega
  have h0 := main [] (by simp)
  unfold tallyField labelOccurrences
  simpa [tallyCount_nil] using h0

/-- Claim C6, corrected.  The tallies do split each field on commas and trim
each piece, and every record's pieces bump their label's count — but empty
labels are counted too (there is no non-empty filter; see
`c6_counterexample`); on the spec's example the mapping and insertion order
are exactly as claimed. -/
theorem c6_tally_amended :
    (∀ reports : List Report, ∀ label : String,
      tallyCount (tallyTags reports) label =
        labelOccurrences (fun r => r.tags) reports label) ∧
      (∀ reports : List Report, ∀ label : String,
        tallyCount (tallyTools reports) label =
          labelOccurrences (fun r => r.skills_tools) reports label) ∧
      tallyTags c6reports = [("api", 2), ("testing", 1), ("design", 1)] :=
  ⟨fun rs l => tallyField_count _ rs l, fun rs l => tallyField_count _ rs l, by decide⟩

/-- Claim C6 as stated is false for empty pieces: a record tagged `"api,"`
yields the mapping `[api ↦ 1, "" ↦ 1]` — the empty label after the trailing
comma is counted, where the claim says only non-empty labels increment. -/
theorem c6_counterexample :
    tallyTags c6trailing = [("api", 1), ("", 1)] ∧
      tallyCount (tallyTags c6trailing) "" = 1 ∧
      ¬(tallyTags c6trailing = [("api", 1)]) := by
  decide

/-! ## The concrete three-week example (claim C7) -/

/-- Claim C7, confirmed.  Range 2024‑01‑01 (day 19723) … 2024‑01‑20 (day
19742), today = 2024‑01‑20, one completed 60-minute record per day: exactly
3 weekly buckets; the first two total 420 minutes at 100% completion; the
third starts Monday 2024‑01‑15 (day 19737) and totals
`60 × (days 19737 … 19742) = 360` minutes. -/
theorem c7_example_weekly_buckets :
    (bucketByWeek c7reports 19723 19742 19742).length = 3 ∧
      (bucketByWeek c7reports 19723 19742 19742).map (fun b => b.totalMinutes) =
        [420, 420, 360] ∧
      (bucketByWeek c7reports 19723 19742 19742).map (fun b => b.completionRate) =
        [100, 100, 100] ∧
      (bucketByWeek c7reports 19723 19742 19742).map (fun b => b.weekStart) =
        [19723, 19730, 19737] ∧
      (360 : ℤ) = 60 * (19742 - 19737 + 1) := by
  decide

/-! ## Status counting (claim C9) -/

/-- Claim C9, confirmed.  A record counts as in-progress exactly when its
status is one of the three spellings; the three status counts never exceed
the entry total; and a record with an unrecognised status (here
`"cancelled"`) is included in `totalEntries` but in none of the three
counts, making the sum strictly smaller. -/
theorem c9_in_progress_statuses :
    (∀ s : String, isInProgressStatus s = true ↔
        (s = "in progress" ∨ s = "in_progress" ∨ s = "inprogress")) ∧
      (∀ reports : List Report,
        countCompleted reports + countPending reports + countInProgress reports ≤
          totalEntries reports) ∧
      totalEntries c9reports = 1 ∧
      countCompleted c9reports + countPending c9reports + countInProgress c9reports = 0 := by
  refine ⟨?_, ?_, by decide, by decide⟩
  · intro s
    unfold isInProgressStatus
    simp
    try tauto
  · intro rs
    unfold countCompleted countPending countInProgress totalEntries
    rw [← List.countP_eq_length_filter, ← List.countP_eq_length_filter,
      ← List.countP_eq_length_filter]
    induction rs with
    | nil => simp
    | cons r rs ih =>
      simp only [List.countP_cons, List.length_cons]
      have hb : ((if (r.status == "completed") = true then 1 else 0) : ℕ) +
          (if (r.status == "pending") = true then 1 else 0) +
          (if isInProgressStatus r.status = true then 1 else 0) ≤ 1 := by
        by_cases h1 : r.status = "completed"
        · rw [h1]
          decide
        · by_cases h2 : r.status = "pending"
          · rw [h2]
            decide
          · by_cases h3 : r.status = "in progress"
            · rw [h3]
              decide
            · by_cases h4 : r.status = "in_progress"
              · rw [h4]
                decide
              · by_cases h5 : r.status = "inprogress"
                · rw [h5]
                  decide
                · rw [if_neg (by simp [h1]), if_neg (by simp [h2]),
                    if_neg (by unfold isInProgressStatus; simp [h3, h4, h5])]
                  omega
      split_ifs at hb ⊢ <;> omega

/-! ## The overall hour total (claim C10) -/

theorem foldl_jsAdd_num (rs : List Report) (q : ℚ) :
    rs.foldl (fun s r => jsAdd s (jsDiv60 r.time_spent)) (JSNum.num q) =
      JSNum.num (q + (rs.map (fun r => ((orZero r.time_spent : ℤ) : ℚ) / 60)).sum) := by
  induction rs generalizing q with
  | nil => simp
  | cons r rs ih =>
    rw [List.foldl_cons]
    have hstep : jsAdd (JSNum.num q) (jsDiv60 r.time_spent) =
        JSNum.num (q + ((orZero r.time_spent : ℤ) : ℚ) / 60) := by
      cases hts : r.time_spent with
      | none => simp [hts, jsAdd, jsDiv60, orZero]
      | some v => simp [hts, jsAdd, jsDiv60, orZero]
    rw [hstep, ih]
    simp only [List.map_cons, List.sum_cons]
    congr 1
    ring

theorem totalHoursRaw_eq (reports : List Report) :
    totalHoursRaw reports =
      JSNum.num ((reports.map (fun r => ((orZero r.time_spent : ℤ) : ℚ) / 60)).sum) := by
  unfold totalHoursRaw
  rw [foldl_jsAdd_num, zero_add]

/-- Claim C10 as stated is false: no record set — in particular none
containing a record with a `NULL` `time_spent` — makes the overall hour
total `NaN`, because JS coerces `null` to `0` in `null / 60`. -/
theorem c10_counterexample :
    ¬ ∃ reports : List Report, (∃ r ∈ reports, r.time_spent = none) ∧
        (totalHoursRaw reports).isNaN = true := by
  rintro ⟨rs, -, hnan⟩
  rw [totalHoursRaw_eq] at hnan
  simp [JSNum.isNaN] at hnan

/-- Claim C10, corrected.  The unguarded `time_spent / 60` at line 112
coerces a `NULL` value to `0` (JS `null / 60 === 0`), so the overall total
equals the sum of the guarded per-record quotients, is never `NaN`, and on a
single `NULL` record it is `0`. -/
theorem c10_null_duration_amended :
    (∀ reports : List Report,
        totalHoursRaw reports =
          JSNum.num ((reports.map (fun r => ((orZero r.time_spent : ℤ) : ℚ) / 60)).sum)) ∧
      (∀ reports : List Report, (totalHoursRaw reports).isNaN = false) ∧
      totalHoursRaw c10reports = JSNum.num 0 := by
  refine ⟨totalHoursRaw_eq, ?_, ?_⟩
  · intro rs
    rw [totalHoursRaw_eq]
    rfl
  · rw [totalHoursRaw_eq]
    simp [c10reports, orZero]

end Internly
